import Mathlib

/-!
Shallow embedding of the record-distribution core of the `distributer`
repository (`src/backend/utils/distributionEngine.js`,
`src/backend/controllers/distributionController.js`,
`src/backend/models/Distribution.js`), together with theorems settling the
specification claims about it.

Modelling conventions:
* JavaScript numbers are modelled as exact rationals (`ℚ`) / naturals;
  `Math.round` is `jsRound` (round half toward positive infinity),
  `Math.floor`/`%` on nonnegative integers are `Nat` division/modulo.
* `Math.sqrt` (used only by `calculateFairnessScore`) is `Real.sqrt`.
* Timestamps (`new Date()`, `Date.now()`) are opaque `Nat` parameters.
* JavaScript's `Array.prototype.sort`, stable since ES2019, is modelled by
  `List.insertionSort`, which is a stable sort for the comparator relations
  used here.
* Mongoose documents are modelled as plain structures; `Model.create` and
  `document.save()` run the schema's `pre('save')` hook (`preSave`);
  mongoose strict mode drops object fields absent from the schema, so the
  persisted summary (`PSummary`) holds exactly the three fields declared in
  `distributionSchema.summary`.
-/

namespace Distributer

/-- Record lifecycle status (`distributionSchema` record `status` enum). -/
inductive RStatus
  | pending
  | inProgress
  | completed
  | failed
deriving DecidableEq, Repr

/-- One unit of work, as carried through the engine and the store
(`firstName`, `phone`, `notes` from the normalizer; `status`, `assignedAt`,
`completedAt`, `redistributed` added by the engine / controller). -/
structure Rec where
  firstName : String
  phone : String
  notes : String
  status : RStatus
  assignedAt : Nat
  completedAt : Option Nat := none
  redistributed : Bool := false
deriving DecidableEq, Repr

/-- Agent directory entry as consumed by the engine
(`{_id, name, email, isActive, assignedTasks, completedTasks}`). -/
structure Agent where
  id : Nat
  name : String
  email : String
  isActive : Bool
  assignedTasks : Nat
  completedTasks : Nat
deriving DecidableEq, Repr

/-- One agent's share of one distribution (`AgentAssignmentGroup`).
`weight` is present only on groups produced by the weighted strategy. -/
structure Group where
  agentId : Nat
  agentName : String
  agentEmail : String
  assignedCount : Nat
  records : List Rec
  weight : Option ℚ := none
deriving DecidableEq, Repr

/-- JavaScript `Math.max` on exact rationals, written so that it reduces
by computation. -/
def jsMax (a b : ℚ) : ℚ := if a ≤ b then b else a

/-- JavaScript `Math.min` on exact rationals. -/
def jsMin (a b : ℚ) : ℚ := if a ≤ b then a else b

theorem jsMax_eq (a b : ℚ) : jsMax a b = max a b := by rw [max_def]; rfl

theorem jsMin_eq (a b : ℚ) : jsMin a b = min a b := by rw [min_def]; rfl

theorem le_jsMax_left (a b : ℚ) : a ≤ jsMax a b := by
  rw [jsMax_eq]
  exact le_max_left a b

/-- JavaScript `Math.round`: round half toward positive infinity. -/
def jsRound (x : ℚ) : ℤ := Int.floor (x + 1/2)

/-- `Math.round(x * 100) / 100` — rounding to two decimal places. -/
def jsRound2 (x : ℚ) : ℚ := (jsRound (x * 100) : ℚ) / 100

/-- `calculateAgentPerformance` (distributionEngine.js:197-204). -/
def calculateAgentPerformance (a : Agent) : ℚ :=
  if a.assignedTasks = 0 then 7/10
  else
    let completionRate : ℚ := (a.completedTasks : ℚ) / (a.assignedTasks : ℚ)
    let experienceFactor : ℚ := jsMin 1 ((a.assignedTasks : ℚ) / 100)
    completionRate * (7/10) + experienceFactor * (3/10)

/-- `calculateWorkloadFactor` (distributionEngine.js:209-218). -/
def calculateWorkloadFactor (a : Agent) : ℚ :=
  let pendingTasks : ℤ := (a.assignedTasks : ℤ) - (a.completedTasks : ℤ)
  if pendingTasks ≤ 0 then 1
  else if 50 ≤ pendingTasks then 1/10
  else jsMax (1/10) (1 - (pendingTasks : ℚ) / 50)

/-- Entry of the weight table built by `calculateAgentWeights`. -/
structure WeightEntry where
  agentId : Nat
  weight : ℚ
  performance : ℚ
  workloadFactor : ℚ
deriving DecidableEq, Repr

/-- Descending-by-weight comparator used by
`sort((a, b) => b.weight - a.weight)`: `a` may precede `b` iff
`b.weight ≤ a.weight`. -/
def weightGE (a b : WeightEntry) : Prop := b.weight ≤ a.weight

instance : DecidableRel weightGE := fun a b => inferInstanceAs (Decidable (b.weight ≤ a.weight))

instance : IsTotal WeightEntry weightGE := ⟨fun a b => le_total b.weight a.weight⟩

instance : IsTrans WeightEntry weightGE := ⟨fun _ _ _ h h2 => le_trans h2 h⟩

/-- `calculateAgentWeights` (distributionEngine.js:176-192): map each agent
to its weight entry, then sort descending by weight (stably). -/
def calculateAgentWeights (agents : List Agent) : List WeightEntry :=
  List.insertionSort weightGE
    (agents.map fun a =>
      let performance := calculateAgentPerformance a
      let workloadFactor := calculateWorkloadFactor a
      { agentId := a.id
        weight := jsMax (1/10) (performance * workloadFactor)
        performance := performance
        workloadFactor := workloadFactor })

/-- `{...record, status: 'pending', assignedAt: new Date()}`. -/
def assignRecord (now : Nat) (r : Rec) : Rec :=
  { r with status := RStatus.pending, assignedAt := now }

/-- The count handed to agent number `i` (0-based) by the equal strategy:
`recordsPerAgent + (i < remainingRecords ? 1 : 0)`. -/
def eqCount (n r i : Nat) : Nat := n + (if i < r then 1 else 0)

/-- Loop body of `equalDistribution` (distributionEngine.js:59-77):
`i` is the loop counter, `idx` the running `recordIndex`. -/
def equalGo (now : Nat) (records : List Rec) (n r : Nat) :
    Nat → Nat → List Agent → List Group
  | _, _, [] => []
  | i, idx, a :: rest =>
      let assignCount := eqCount n r i
      { agentId := a.id
        agentName := a.name
        agentEmail := a.email
        assignedCount := assignCount
        records := ((records.drop idx).take assignCount).map (assignRecord now) } ::
      equalGo now records n r (i + 1) (idx + assignCount) rest

/-- `equalDistribution` (distributionEngine.js:51-80). -/
def equalDistribution (now : Nat) (records : List Rec) (agents : List Agent) : List Group :=
  equalGo now records (records.length / agents.length) (records.length % agents.length) 0 0 agents

/-- `Math.round(records.length * (weight / totalWeight))`, the share of one
agent under the weighted strategy (distributionEngine.js:95-96). The value
rounded is nonnegative, so `Int.toNat` is lossless. -/
def shareOf (totalRecords : Nat) (totalWeight w : ℚ) : Nat :=
  (jsRound ((totalRecords : ℚ) * (w / totalWeight))).toNat

/-- Fallback agent used to model `agents.find(...)` when no agent matches;
unreachable when the weight table was built from the same agent list. -/
def noAgent : Agent := { id := 0, name := "", email := "", isActive := false,
                         assignedTasks := 0, completedTasks := 0 }

/-- Group built by one iteration of the `weightedDistribution` loop
(distributionEngine.js:93-113) for weight entry `w`, with the running
`recordIndex` equal to `idx`. -/
def weightedGroup (now : Nat) (records : List Rec) (totalWeight : ℚ) (agents : List Agent)
    (idx : Nat) (w : WeightEntry) : Group :=
  let a := (agents.find? fun x => x.id = w.agentId).getD noAgent
  let assignCount := shareOf records.length totalWeight w.weight
  { agentId := a.id
    agentName := a.name
    agentEmail := a.email
    assignedCount := assignCount
    weight := some w.weight
    records := ((records.drop idx).take assignCount).map (assignRecord now) }

/-- Loop of `weightedDistribution` over the sorted weight table; also
returns the final `recordIndex`. -/
def weightedGo (now : Nat) (records : List Rec) (totalWeight : ℚ) (agents : List Agent) :
    Nat → List WeightEntry → List Group × Nat
  | idx, [] => ([], idx)
  | idx, w :: ws =>
      let out := weightedGo now records totalWeight agents
        (idx + shareOf records.length totalWeight w.weight) ws
      (weightedGroup now records totalWeight agents idx w :: out.1, out.2)

/-- `weightedDistribution` (distributionEngine.js:85-128): assign each agent
its rounded proportional share, walking the record list from the front, then
append any remaining records to the first (highest-weight) group. -/
def weightedDistribution (now : Nat) (records : List Rec) (agents : List Agent) : List Group :=
  let agentWeights := calculateAgentWeights agents
  let totalWeight := (agentWeights.map WeightEntry.weight).sum
  let out := weightedGo now records totalWeight agents 0 agentWeights
  if out.2 < records.length then
    let remaining := (records.drop out.2).map (assignRecord now)
    match out.1 with
    | [] => out.1
    | g :: rest =>
        { g with records := g.records ++ remaining
                 assignedCount := g.assignedCount + remaining.length } :: rest
  else out.1

/-- Descending-by-`notes`-length comparator used by
`records.sort((a, b) => complexityB - complexityA)`. -/
def notesGE (a b : Rec) : Prop := b.notes.length ≤ a.notes.length

instance : DecidableRel notesGE :=
  fun a b => inferInstanceAs (Decidable (b.notes.length ≤ a.notes.length))

instance : IsTotal Rec notesGE := ⟨fun a b => le_total b.notes.length a.notes.length⟩

instance : IsTrans Rec notesGE := ⟨fun _ _ _ h h2 => le_trans h2 h⟩

/-- Descending-by-performance comparator used by
`agents.sort((a, b) => performanceB - performanceA)`. -/
def perfGE (a b : Agent) : Prop :=
  calculateAgentPerformance b ≤ calculateAgentPerformance a

instance : DecidableRel perfGE :=
  fun a b =>
    inferInstanceAs (Decidable (calculateAgentPerformance b ≤ calculateAgentPerformance a))

instance : IsTotal Agent perfGE :=
  ⟨fun a b => le_total (calculateAgentPerformance b) (calculateAgentPerformance a)⟩

instance : IsTrans Agent perfGE := ⟨fun _ _ _ h h2 => le_trans h2 h⟩

/-- `agent.records.push(f record); agent.assignedCount++` applied to the
group at position `i` (other groups unchanged). -/
def addToGroup (f : Rec → Rec) (r : Rec) : List Group → Nat → List Group
  | [], _ => []
  | g :: gs, 0 =>
      { g with records := g.records ++ [f r], assignedCount := g.assignedCount + 1 } :: gs
  | g :: gs, i + 1 => g :: addToGroup f r gs i

/-- Round-robin assignment loop shared by `priorityDistribution`
(distributionEngine.js:157-168) and `redistributeTasks`
(distributionEngine.js:271-284): hand each record to the group at the
current index, then advance the index modulo `k`. -/
def rrAssign (f : Rec → Rec) (k : Nat) : List Rec → Nat → List Group → List Group
  | [], _, gs => gs
  | r :: rs, i, gs => rrAssign f k rs ((i + 1) % k) (addToGroup f r gs i)

/-- The sublist of `rs` assigned to group `j` by the round-robin walk
starting at index `i` modulo `k`. -/
def rrSlice (k : Nat) : Nat → Nat → List Rec → List Rec
  | _, _, [] => []
  | i, j, r :: rs => (if i % k = j then [r] else []) ++ rrSlice k ((i + 1) % k) j rs

/-- `priorityDistribution` (distributionEngine.js:133-171): sort records by
descending notes length, agents by descending performance (both stably),
then deal the sorted records round-robin from the best agent. -/
def priorityDistribution (now : Nat) (records : List Rec) (agents : List Agent) : List Group :=
  let sortedRecords := List.insertionSort notesGE records
  let sortedAgents := List.insertionSort perfGE agents
  let distributedAgents := sortedAgents.map fun a =>
    { agentId := a.id
      agentName := a.name
      agentEmail := a.email
      assignedCount := 0
      records := ([] : List Rec) : Group }
  rrAssign (assignRecord now) distributedAgents.length sortedRecords 0 distributedAgents

/-- `Math.min(...counts)` for the nonempty count lists produced by the
engine (`0` as an out-of-domain placeholder for the empty list). -/
def listMin : List Nat → Nat
  | [] => 0
  | c :: cs => cs.foldl Nat.min c

/-- `Math.max(...counts)` for the nonempty count lists produced by the
engine (`0` as an out-of-domain placeholder for the empty list). -/
def listMax : List Nat → Nat
  | [] => 0
  | c :: cs => cs.foldl Nat.max c

/-- `calculateFairnessScore` (distributionEngine.js:244-254). -/
noncomputable def calculateFairnessScore (agentCounts : List Nat) : ℝ :=
  if agentCounts.length ≤ 1 then 1
  else
    let avg : ℝ := ((agentCounts.map (Nat.cast : Nat → ℝ)).sum) / (agentCounts.length : ℝ)
    let variance : ℝ :=
      ((agentCounts.map fun c => ((c : ℝ) - avg) ^ 2).sum) / (agentCounts.length : ℝ)
    let standardDeviation := Real.sqrt variance
    max 0 (1 - standardDeviation / avg)

/-- Engine summary object (`generateSummary` return value). -/
structure Summary where
  totalAgentsAssigned : Nat
  totalRecordsDistributed : Nat
  averageRecordsPerAgent : ℚ
  minRecordsAssigned : Nat
  maxRecordsAssigned : Nat
  distributionVariance : Nat
  distributionTime : Nat
  fairnessScore : ℝ

/-- `generateSummary` (distributionEngine.js:223-239). -/
noncomputable def generateSummary (distributedAgents : List Group) (totalRecords : Nat)
    (distributionTime : Nat) : Summary :=
  let agentCounts := distributedAgents.map Group.assignedCount
  let minAssigned := listMin agentCounts
  let maxAssigned := listMax agentCounts
  let avgAssigned : ℚ := (totalRecords : ℚ) / (distributedAgents.length : ℚ)
  { totalAgentsAssigned := distributedAgents.length
    totalRecordsDistributed := totalRecords
    averageRecordsPerAgent := jsRound2 avgAssigned
    minRecordsAssigned := minAssigned
    maxRecordsAssigned := maxAssigned
    distributionVariance := maxAssigned - minAssigned
    distributionTime := distributionTime
    fairnessScore := calculateFairnessScore agentCounts }

/-- Errors thrown by `distribute` (distributionEngine.js:19-32). -/
inductive DistError
  | emptyInput
  | noAgents
  | noActiveAgents
deriving DecidableEq, Repr

/-- Return value of `distribute` (distributionEngine.js:40-45). -/
structure DistResult where
  agents : List Group
  summary : Summary
  strategy : String
  distributionTime : Nat

/-- `distribute` (distributionEngine.js:16-46). `now` models the `Date`
used for `assignedAt`; `dTime` models the measured wall-clock duration.
An unrecognized strategy name selects `equalDistribution`
(`this.strategies[strategy] || this.strategies.equal`). -/
noncomputable def distribute (records : List Rec) (agents : List Agent) (strategy : String)
    (now dTime : Nat) : Except DistError DistResult :=
  if records.length = 0 then Except.error DistError.emptyInput
  else if agents.length = 0 then Except.error DistError.noAgents
  else
    let activeAgents := agents.filter Agent.isActive
    if activeAgents.length = 0 then Except.error DistError.noActiveAgents
    else
      let distributedData :=
        if strategy = "weighted" then weightedDistribution now records activeAgents
        else if strategy = "priority" then priorityDistribution now records activeAgents
        else equalDistribution now records activeAgents
      Except.ok
        { agents := distributedData
          summary := generateSummary distributedData records.length dTime
          strategy := strategy
          distributionTime := dTime }

/-- Live load of a group: records currently `pending` or `in-progress`
(distributionEngine.js:267). -/
def currentLoad (g : Group) : Nat :=
  (g.records.filter fun r =>
    decide (r.status = RStatus.pending) || decide (r.status = RStatus.inProgress)).length

/-- Ascending-by-live-load comparator used by
`sort((a, b) => a.currentLoad - b.currentLoad)`. -/
def loadLE (a b : Group) : Prop := currentLoad a ≤ currentLoad b

instance : DecidableRel loadLE :=
  fun a b => inferInstanceAs (Decidable (currentLoad a ≤ currentLoad b))

instance : IsTotal Group loadLE := ⟨fun a b => le_total (currentLoad a) (currentLoad b)⟩

instance : IsTrans Group loadLE := ⟨fun _ _ _ h h2 => le_trans h h2⟩

/-- `{...task, status: 'pending', assignedAt: new Date(), redistributed: true}`
(distributionEngine.js:274-279). -/
def redistAssign (now : Nat) (r : Rec) : Rec :=
  { r with status := RStatus.pending, assignedAt := now, redistributed := true }

/-- Persisted summary: exactly the fields of `distributionSchema.summary`
(Distribution.js:91-104); all other keys of the engine summary are dropped
by mongoose strict mode. -/
structure PSummary where
  totalAgentsAssigned : Nat
  averageRecordsPerAgent : ℚ
  distributionTime : Nat
deriving DecidableEq, Repr

/-- Persisted Distribution document (fields relevant to the claims). -/
structure PDist where
  id : Nat
  totalRecords : Nat
  agents : List Group
  psummary : PSummary
deriving DecidableEq, Repr

/-- `redistributeTasks` (distributionEngine.js:259-290): sort the groups
ascending by live load (stably), then hand the failed tasks out round-robin
from the least-loaded group; remaining document fields are spread through
unchanged. The cached `currentLoad` field incremented inside the loop is
never read again and is stripped before returning, so it is not modelled. -/
def redistributeTasks (now : Nat) (failedTasks : List Rec) (original : PDist) : PDist :=
  if failedTasks.length = 0 then original
  else
    let agentWorkloads := List.insertionSort loadLE original.agents
    { original with
        agents := rrAssign (redistAssign now) agentWorkloads.length failedTasks 0 agentWorkloads }

/-- Agent counter state held on the `User` documents. The counters are
plain JavaScript numbers that `$inc` may drive below zero, hence `ℤ`. -/
structure UserCt where
  id : Nat
  assignedTasks : ℤ
  completedTasks : ℤ
deriving DecidableEq, Repr

/-- Update the first element satisfying `p` (mongoose by-id updates and
in-place mutation of the group found by `find`). -/
def updateFirst (p : α → Bool) (f : α → α) : List α → List α
  | [] => []
  | x :: xs => if p x then f x :: xs else x :: updateFirst p f xs

/-- `pre('save')` hook of the distribution schema (Distribution.js:159-165):
recompute `summary.totalAgentsAssigned` and (integer-rounded)
`summary.averageRecordsPerAgent` whenever the document is saved. -/
def preSave (d : PDist) : PDist :=
  if d.agents.length ≠ 0 then
    { d with psummary :=
        { d.psummary with
            totalAgentsAssigned := d.agents.length
            averageRecordsPerAgent :=
              (jsRound ((d.totalRecords : ℚ) / (d.agents.length : ℚ)) : ℚ) } }
  else d

/-- `Distribution.create` as invoked by `uploadAndDistribute`
(distributionController.js:49-68): persist the engine output, keeping only
the schema's summary fields, and run the save hook. -/
def createDistribution (id totalRecords : Nat) (agents : List Group) (summary : Summary) :
    PDist :=
  preSave
    { id := id
      totalRecords := totalRecords
      agents := agents
      psummary :=
        { totalAgentsAssigned := summary.totalAgentsAssigned
          averageRecordsPerAgent := summary.averageRecordsPerAgent
          distributionTime := summary.distributionTime } }

/-- Errors of `updateRecordStatus` (distributionController.js:347-372). -/
inductive UpdError
  | notAssigned
  | invalidIndex
deriving DecidableEq, Repr

/-- `$inc: { completedTasks: delta }` on the user with the given id. -/
def incCompleted (users : List UserCt) (id : Nat) (delta : ℤ) : List UserCt :=
  updateFirst (fun u => u.id = id) (fun u => { u with completedTasks := u.completedTasks + delta })
    users

/-- `updateRecordStatus` (distributionController.js:341-412), for a
distribution already located by id: find the caller's group, bounds-check
the record index, overwrite the record's status (and notes if a non-empty
notes string was sent), stamp `completedAt` when the new status is
`completed`, save the document (running the save hook), and apply the
completed-counter increment or decrement when the transition crosses the
`completed` boundary. Returns the updated document, user table and record. -/
def updateRecordStatus (d : PDist) (users : List UserCt) (callerId : Nat)
    (recordIndex : Nat) (status : RStatus) (notes : Option String) (now : Nat) :
    Except UpdError (PDist × List UserCt × Rec) :=
  match d.agents.find? fun g => g.agentId = callerId with
  | none => Except.error UpdError.notAssigned
  | some agentData =>
      if hidx : recordIndex < agentData.records.length then
        let record := agentData.records.get ⟨recordIndex, hidx⟩
        let oldStatus := record.status
        let newRecord : Rec :=
          { record with
              status := status
              notes := (match notes with
                | some s => if s = "" then record.notes else s
                | none => record.notes)
              completedAt := if status = RStatus.completed then some now else record.completedAt }
        let d' := preSave
          { d with agents := (updateFirst (fun g => g.agentId = callerId)
              (fun g => { g with records := g.records.set recordIndex newRecord }) d.agents) }
        let users' :=
          if oldStatus ≠ RStatus.completed ∧ status = RStatus.completed then
            incCompleted users callerId 1
          else if oldStatus = RStatus.completed ∧ status ≠ RStatus.completed then
            incCompleted users callerId (-1)
          else users
        Except.ok (d', users', newRecord)
      else Except.error UpdError.invalidIndex

/-- Error of `deleteDistribution` (distributionController.js:536-541). -/
inductive DelError
  | notFound
deriving DecidableEq, Repr

/-- Records of a group currently in status `completed`
(distributionController.js:545). -/
def countCompleted (g : Group) : Nat :=
  (g.records.filter fun r => decide (r.status = RStatus.completed)).length

/-- Counter decrement applied for one group when its distribution is
deleted (distributionController.js:546-551). -/
def decrementFor (g : Group) (users : List UserCt) : List UserCt :=
  updateFirst (fun u => u.id = g.agentId)
    (fun u => { u with assignedTasks := u.assignedTasks - (g.assignedCount : ℤ)
                       completedTasks := u.completedTasks - (countCompleted g : ℤ) })
    users

/-- `deleteDistribution` (distributionController.js:533-562): look the
distribution up by id (404 `NotFound` if absent, nothing modified),
decrement each group's agent counters, then remove the document. -/
def deleteDistribution (dists : List PDist) (users : List UserCt) (id : Nat) :
    Except DelError (List PDist × List UserCt) :=
  match dists.find? fun d => d.id = id with
  | none => Except.error DelError.notFound
  | some d =>
      let users' := d.agents.foldl (fun us g => decrementFor g us) users
      Except.ok (dists.eraseP (fun x => x.id = id), users')

/-! ### Helper lemmas: `listMin` / `listMax` -/

theorem foldl_min_mem : ∀ (cs : List Nat) (b : Nat), cs.foldl Nat.min b ∈ b :: cs
  | [], _ => by simp
  | c :: cs, b => by
    have h := foldl_min_mem cs (Nat.min b c)
    simp only [List.foldl_cons]
    rcases List.mem_cons.mp h with h1 | h1
    · have h2 : Nat.min b c = b ∨ Nat.min b c = c := by
        show b ⊓ c = b ∨ b ⊓ c = c
        rw [Nat.min_def]
        split <;> simp
      rcases h2 with h2 | h2 <;> rw [h1, h2] <;> simp
    · simp [h1]

theorem foldl_min_le : ∀ (cs : List Nat) (b x : Nat), x ∈ b :: cs → cs.foldl Nat.min b ≤ x
  | [], b, x, hx => by
    simp at hx
    simp [hx]
  | c :: cs, b, x, hx => by
    simp only [List.foldl_cons]
    rcases List.mem_cons.mp hx with h1 | h1
    · exact le_trans (foldl_min_le cs (Nat.min b c) _ (List.mem_cons_self _ _))
        (by rw [h1]; exact Nat.min_le_left _ _)
    · rcases List.mem_cons.mp h1 with h2 | h2
      · exact le_trans (foldl_min_le cs (Nat.min b c) _ (List.mem_cons_self _ _))
          (by rw [h2]; exact Nat.min_le_right _ _)
      · exact foldl_min_le cs (Nat.min b c) x (List.mem_cons_of_mem _ h2)

theorem foldl_max_mem : ∀ (cs : List Nat) (b : Nat), cs.foldl Nat.max b ∈ b :: cs
  | [], _ => by simp
  | c :: cs, b => by
    have h := foldl_max_mem cs (Nat.max b c)
    simp only [List.foldl_cons]
    rcases List.mem_cons.mp h with h1 | h1
    · have h2 : Nat.max b c = b ∨ Nat.max b c = c := by
        show b ⊔ c = b ∨ b ⊔ c = c
        rw [Nat.max_def]
        split <;> simp
      rcases h2 with h2 | h2 <;> rw [h1, h2] <;> simp
    · simp [h1]

theorem le_foldl_max : ∀ (cs : List Nat) (b x : Nat), x ∈ b :: cs → x ≤ cs.foldl Nat.max b
  | [], b, x, hx => by
    simp at hx
    simp [hx]
  | c :: cs, b, x, hx => by
    simp only [List.foldl_cons]
    rcases List.mem_cons.mp hx with h1 | h1
    · exact le_trans (by rw [h1]; exact Nat.le_max_left b c)
        (le_foldl_max cs (Nat.max b c) _ (List.mem_cons_self _ _))
    · rcases List.mem_cons.mp h1 with h2 | h2
      · exact le_trans (by rw [h2]; exact Nat.le_max_right b c)
          (le_foldl_max cs (Nat.max b c) _ (List.mem_cons_self _ _))
      · exact le_foldl_max cs (Nat.max b c) x (List.mem_cons_of_mem _ h2)

theorem listMin_mem {cs : List Nat} (h : cs ≠ []) : listMin cs ∈ cs := by
  cases cs with
  | nil => exact absurd rfl h
  | cons c cs => exact foldl_min_mem cs c

theorem listMin_le {cs : List Nat} {c : Nat} (hc : c ∈ cs) : listMin cs ≤ c := by
  cases cs with
  | nil => simp at hc
  | cons b cs => exact foldl_min_le cs b c hc

theorem listMax_mem {cs : List Nat} (h : cs ≠ []) : listMax cs ∈ cs := by
  cases cs with
  | nil => exact absurd rfl h
  | cons c cs => exact foldl_max_mem cs c

theorem le_listMax {cs : List Nat} {c : Nat} (hc : c ∈ cs) : c ≤ listMax cs := by
  cases cs with
  | nil => simp at hc
  | cons b cs => exact le_foldl_max cs b c hc

/-! ### Helper lemmas: `updateFirst` -/

theorem updateFirst_length {α : Type} (p : α → Bool) (f : α → α) :
    ∀ l : List α, (updateFirst p f l).length = l.length
  | [] => rfl
  | x :: xs => by
    simp only [updateFirst]
    split <;> simp [updateFirst_length p f xs]

theorem updateFirst_find?_same {α : Type} (p : α → Bool) (f : α → α)
    (hf : ∀ a, p a = true → p (f a) = true) :
    ∀ l : List α, (updateFirst p f l).find? p = (l.find? p).map f
  | [] => rfl
  | x :: xs => by
    by_cases hx : p x = true
    · simp only [updateFirst, if_pos hx]
      rw [List.find?_cons_of_pos _ (hf x hx), List.find?_cons_of_pos _ hx]
      rfl
    · simp only [updateFirst, if_neg hx]
      rw [List.find?_cons_of_neg _ hx, List.find?_cons_of_neg _ hx,
        updateFirst_find?_same p f hf xs]

theorem updateFirst_find?_other {α : Type} (p q : α → Bool) (f : α → α)
    (hpq : ∀ a, p a = true → q a = false) (hq : ∀ a, q (f a) = q a) :
    ∀ l : List α, (updateFirst p f l).find? q = l.find? q
  | [] => rfl
  | x :: xs => by
    by_cases hx : p x = true
    · have hqx : q x = false := hpq x hx
      have hqfx : q (f x) = false := by rw [hq]; exact hqx
      simp only [updateFirst, if_pos hx]
      rw [List.find?_cons_of_neg _ (by simp [hqfx]), List.find?_cons_of_neg _ (by simp [hqx])]
    · simp only [updateFirst, if_neg hx]
      by_cases hqx : q x = true
      · rw [List.find?_cons_of_pos _ hqx, List.find?_cons_of_pos _ hqx]
      · rw [List.find?_cons_of_neg _ hqx, List.find?_cons_of_neg _ hqx,
          updateFirst_find?_other p q f hpq hq xs]

/-! ### Helper lemmas: stability of the stable sorts -/

/-- Stability of `List.insertionSort` for key-based comparators: the
elements carrying any fixed key keep their original relative order. -/
theorem filter_insertionSort_eq {α β : Type} [DecidableEq β] (r : α → α → Prop) [DecidableRel r]
    (key : α → β) (hkey : ∀ a b, key a = key b → r a b) (l : List α) (v : β) :
    (List.insertionSort r l).filter (fun a => key a = v) = l.filter (fun a => key a = v) := by
  have hsub : (l.filter (fun a => key a = v)).Sublist (List.insertionSort r l) := by
    apply List.sublist_insertionSort
    · apply List.pairwise_of_forall_mem_list
      intro a ha b hb
      have ha2 := List.of_mem_filter ha
      have hb2 := List.of_mem_filter hb
      simp only [decide_eq_true_eq] at ha2 hb2
      exact hkey a b (ha2.trans hb2.symm)
    · exact List.filter_sublist l
  have hsub2 := List.Sublist.filter (fun a => decide (key a = v)) hsub
  rw [List.filter_filter] at hsub2
  simp only [Bool.and_self] at hsub2
  have hperm : ((List.insertionSort r l).filter (fun a => key a = v)).Perm
      (l.filter (fun a => key a = v)) :=
    List.Perm.filter _ (List.perm_insertionSort r l)
  exact (List.Sublist.eq_of_length hsub2 hperm.length_eq.symm).symm

/-! ### Helper lemmas: round-robin assignment -/

theorem addToGroup_length (f : Rec → Rec) (r : Rec) :
    ∀ (gs : List Group) (i : Nat), (addToGroup f r gs i).length = gs.length
  | [], _ => rfl
  | _ :: gs, 0 => by simp [addToGroup]
  | _ :: gs, i + 1 => by simp [addToGroup, addToGroup_length f r gs i]

theorem addToGroup_getElem? (f : Rec → Rec) (r : Rec) :
    ∀ (gs : List Group) (i j : Nat),
      (addToGroup f r gs i)[j]? =
        if i = j then
          (gs[j]?).map fun g =>
            { g with records := g.records ++ [f r], assignedCount := g.assignedCount + 1 }
        else gs[j]?
  | [], i, j => by
    simp only [addToGroup]
    split <;> simp
  | g :: gs, 0, 0 => by simp [addToGroup]
  | g :: gs, 0, j + 1 => by simp [addToGroup]
  | g :: gs, i + 1, 0 => by simp [addToGroup]
  | g :: gs, i + 1, j + 1 => by
    simp only [addToGroup, List.getElem?_cons_succ]
    rw [addToGroup_getElem? f r gs i j]
    by_cases h : i = j
    · simp [h]
    · simp [h, fun hc => h (Nat.succ_injective hc)]

theorem rrAssign_length (f : Rec → Rec) (k : Nat) :
    ∀ (rs : List Rec) (i : Nat) (gs : List Group), (rrAssign f k rs i gs).length = gs.length
  | [], _, _ => rfl
  | r :: rs, i, gs => by
    simp only [rrAssign]
    rw [rrAssign_length f k rs _ _, addToGroup_length]

theorem rrAssign_getElem? (f : Rec → Rec) {k : Nat} :
    ∀ (rs : List Rec) (i : Nat) (gs : List Group), i < k → k = gs.length →
      ∀ j, (rrAssign f k rs i gs)[j]? =
        (gs[j]?).map fun g : Group =>
          { g with
              records := g.records ++ (rrSlice k i j rs).map f,
              assignedCount := g.assignedCount + (rrSlice k i j rs).length }
  | [], i, gs, _, _, j => by
    simp only [rrAssign, rrSlice]
    cases gs[j]? <;> simp
  | r :: rs, i, gs, hik, hk, j => by
    have hk0 : 0 < k := lt_of_le_of_lt (Nat.zero_le i) hik
    have hik2 : (i + 1) % k < k := Nat.mod_lt _ hk0
    have hk2 : k = (addToGroup f r gs i).length := by rw [addToGroup_length]; exact hk
    have him : i % k = i := Nat.mod_eq_of_lt hik
    simp only [rrAssign]
    rw [rrAssign_getElem? f rs ((i + 1) % k) _ hik2 hk2 j, addToGroup_getElem?]
    by_cases hij : i = j
    · rw [if_pos hij]
      simp only [rrSlice, him, if_pos hij]
      cases gs[j]? with
      | none => simp
      | some g => simp [Group.mk.injEq, List.append_assoc]; omega
    · rw [if_neg hij]
      simp only [rrSlice, him, if_neg hij]
      simp

theorem rrAssign_balance (f : Rec → Rec) {k : Nat} :
    ∀ (rs : List Rec) (i c : Nat) (gs : List Group), i < k → k = gs.length →
      (∀ j g, gs[j]? = some g → g.assignedCount = c + if j < i then 1 else 0) →
      ∃ c2 i2, i2 < k ∧ ∀ j g, (rrAssign f k rs i gs)[j]? = some g →
        g.assignedCount = c2 + if j < i2 then 1 else 0
  | [], i, c, gs, hik, _, hinv => ⟨c, i, hik, by simpa [rrAssign] using hinv⟩
  | r :: rs, i, c, gs, hik, hk, hinv => by
    have hk0 : 0 < k := lt_of_le_of_lt (Nat.zero_le i) hik
    have hk2 : k = (addToGroup f r gs i).length := by rw [addToGroup_length]; exact hk
    have hinv2 : ∀ j g, (addToGroup f r gs i)[j]? = some g →
        g.assignedCount = c + if j < i + 1 then 1 else 0 := by
      intro j g hj
      rw [addToGroup_getElem?] at hj
      by_cases hij : i = j
      · rw [if_pos hij] at hj
        cases hg0 : gs[j]? with
        | none => rw [hg0] at hj; simp at hj
        | some g0 =>
          rw [hg0] at hj
          simp only [Option.map, Option.some.injEq] at hj
          have hc0 := hinv j g0 hg0
          have hcnt : g.assignedCount = g0.assignedCount + 1 := by
            rw [← hj]
          split_ifs at hc0 ⊢ <;> omega
      · rw [if_neg hij] at hj
        have hc0 := hinv j g hj
        split_ifs at hc0 ⊢ <;> omega
    simp only [rrAssign]
    by_cases hcase : i + 1 < k
    · have hmod : (i + 1) % k = i + 1 := Nat.mod_eq_of_lt hcase
      rw [hmod]
      exact rrAssign_balance f rs (i + 1) c _ hcase hk2 hinv2
    · have hik3 : i + 1 = k := by omega
      have hmod : (i + 1) % k = 0 := by rw [hik3]; exact Nat.mod_self k
      rw [hmod]
      apply rrAssign_balance f rs 0 (c + 1) _ hk0 hk2
      intro j g hj
      have hlen : j < (addToGroup f r gs i).length := by
        rcases List.getElem?_eq_some.mp hj with ⟨h, _⟩
        exact h
      have hc0 := hinv2 j g hj
      have hjk : j < i + 1 := by rw [hik3, hk2]; exact hlen
      split_ifs at hc0 ⊢ <;> omega

/-! ### Helper lemmas: the equal strategy -/

/-- The running `recordIndex` offset of agent number `j` relative to agent
number `i`: the records consumed by agents `i, …, i + j - 1`. -/
def eqStart (n r i j : Nat) : Nat :=
  ((List.range j).map fun t => eqCount n r (i + t)).sum

theorem eqStart_zero (n r i : Nat) : eqStart n r i 0 = 0 := rfl

theorem eqStart_succ (n r i j : Nat) :
    eqStart n r i (j + 1) = eqCount n r i + eqStart n r (i + 1) j := by
  unfold eqStart
  rw [List.range_succ_eq_map, List.map_cons, List.sum_cons, List.map_map]
  refine congrArg₂ (· + ·) (by simp) ?_
  refine congrArg List.sum ?_
  apply List.map_congr_left
  intro t _
  simp only [Function.comp_apply]
  congr 1
  omega

theorem eqStart_total (n r k : Nat) (hr : r ≤ k) : eqStart n r 0 k = k * n + r := by
  unfold eqStart
  obtain ⟨m, rfl⟩ : ∃ m, k = r + m := ⟨k - r, by omega⟩
  rw [List.range_add, List.map_append, List.sum_append, List.map_map]
  have h1 : (List.range r).map (fun t => eqCount n r (0 + t)) = List.replicate r (n + 1) := by
    refine List.eq_replicate_iff.mpr ⟨by simp, ?_⟩
    intro b hb
    obtain ⟨t, ht, rfl⟩ := List.mem_map.mp hb
    have : t < r := List.mem_range.mp ht
    simp [eqCount, Nat.zero_add, this]
  have h2 : (List.range m).map ((fun t => eqCount n r (0 + t)) ∘ fun x => r + x) =
      List.replicate m n := by
    refine List.eq_replicate_iff.mpr ⟨by simp, ?_⟩
    intro b hb
    obtain ⟨t, _, rfl⟩ := List.mem_map.mp hb
    have : ¬ 0 + (r + t) < r := by omega
    simp [Function.comp, eqCount, this]
  rw [h1, h2, List.sum_replicate, List.sum_replicate, smul_eq_mul, smul_eq_mul]
  ring

theorem equalGo_length (now : Nat) (records : List Rec) (n r : Nat) :
    ∀ (ags : List Agent) (i idx : Nat), (equalGo now records n r i idx ags).length = ags.length
  | [], _, _ => rfl
  | _ :: rest, i, idx => by
    simp only [equalGo, List.length_cons]
    rw [equalGo_length now records n r rest _ _]

theorem equalGo_getElem? (now : Nat) (records : List Rec) (n r : Nat) :
    ∀ (ags : List Agent) (i idx j : Nat),
      (equalGo now records n r i idx ags)[j]? =
        (ags[j]?).map fun a : Agent =>
          { agentId := a.id
            agentName := a.name
            agentEmail := a.email
            assignedCount := eqCount n r (i + j)
            records := ((records.drop (idx + eqStart n r i j)).take (eqCount n r (i + j))).map
              (assignRecord now) }
  | [], _, _, j => by simp [equalGo]
  | a :: rest, i, idx, 0 => by
    simp [equalGo, eqStart_zero]
  | a :: rest, i, idx, j + 1 => by
    simp only [equalGo, List.getElem?_cons_succ]
    rw [equalGo_getElem? now records n r rest (i + 1) (idx + eqCount n r i) j]
    have h1 : i + 1 + j = i + (j + 1) := by omega
    have h2 : idx + eqCount n r i + eqStart n r (i + 1) j = idx + eqStart n r i (j + 1) := by
      rw [eqStart_succ]
      omega
    rw [h1, h2]

theorem equalGo_counts (now : Nat) (records : List Rec) (n r : Nat) :
    ∀ (ags : List Agent) (i idx : Nat),
      (equalGo now records n r i idx ags).map Group.assignedCount =
        (List.range ags.length).map fun j => eqCount n r (i + j)
  | [], _, _ => rfl
  | a :: rest, i, idx => by
    simp only [equalGo, List.map_cons, List.length_cons, List.range_succ_eq_map, List.map_map]
    rw [equalGo_counts now records n r rest (i + 1) _]
    refine congrArg₂ (· :: ·) (by simp) ?_
    apply List.map_congr_left
    intro t _
    simp only [Function.comp_apply]
    congr 1
    omega

theorem equalGo_flatten (now : Nat) (records : List Rec) (n r : Nat) :
    ∀ (ags : List Agent) (i idx : Nat),
      ((equalGo now records n r i idx ags).map Group.records).flatten =
        ((records.drop idx).take (eqStart n r i ags.length)).map (assignRecord now)
  | [], _, idx => by simp [equalGo, eqStart_zero]
  | a :: rest, i, idx => by
    simp only [equalGo, List.map_cons, List.flatten_cons, List.length_cons]
    rw [equalGo_flatten now records n r rest (i + 1) (idx + eqCount n r i)]
    rw [eqStart_succ, List.take_add, List.map_append]
    congr 1
    rw [List.drop_drop]

/-! ### Helper lemmas: the weighted strategy -/

theorem weightedGo_snd (now : Nat) (records : List Rec) (W : ℚ) (agents : List Agent) :
    ∀ (ws : List WeightEntry) (idx : Nat),
      (weightedGo now records W agents idx ws).2 =
        idx + ((ws.map fun w => shareOf records.length W w.weight).sum)
  | [], idx => by simp [weightedGo]
  | w :: ws, idx => by
    simp only [weightedGo, List.map_cons, List.sum_cons]
    rw [weightedGo_snd now records W agents ws _]
    omega

theorem weightedGo_length (now : Nat) (records : List Rec) (W : ℚ) (agents : List Agent) :
    ∀ (ws : List WeightEntry) (idx : Nat),
      (weightedGo now records W agents idx ws).1.length = ws.length
  | [], _ => rfl
  | w :: ws, idx => by
    simp only [weightedGo, List.length_cons]
    rw [weightedGo_length now records W agents ws _]

theorem weightedGo_getElem? (now : Nat) (records : List Rec) (W : ℚ) (agents : List Agent) :
    ∀ (ws : List WeightEntry) (idx j : Nat),
      (weightedGo now records W agents idx ws).1[j]? =
        (ws[j]?).map fun w : WeightEntry =>
          weightedGroup now records W agents
            (idx + (((ws.take j).map fun w2 => shareOf records.length W w2.weight).sum)) w
  | [], _, j => by simp [weightedGo]
  | w :: ws, idx, 0 => by simp [weightedGo]
  | w :: ws, idx, j + 1 => by
    simp only [weightedGo, List.getElem?_cons_succ, List.take_succ_cons, List.map_cons,
      List.sum_cons]
    rw [weightedGo_getElem? now records W agents ws _ j]
    have : idx + shareOf records.length W w.weight +
        ((List.map (fun w2 => shareOf records.length W w2.weight) (ws.take j)).sum) =
        idx + (shareOf records.length W w.weight +
          ((List.map (fun w2 => shareOf records.length W w2.weight) (ws.take j)).sum)) := by
      omega
    rw [this]

/-- Every entry of the weight table points back at some agent of the input
list, so the `find` inside the weighted loop succeeds and returns an agent
carrying the entry's id. -/
theorem weight_find_success (agents : List Agent) :
    ∀ w ∈ calculateAgentWeights agents,
      ∃ a, (agents.find? fun x => x.id = w.agentId) = some a ∧ a.id = w.agentId := by
  intro w hw
  rw [calculateAgentWeights, List.mem_insertionSort] at hw
  obtain ⟨a0, ha0, hwa⟩ := List.mem_map.mp hw
  have hid : w.agentId = a0.id := by rw [← hwa]
  have hsome : ((agents.find? fun x => x.id = w.agentId)).isSome :=
    List.find?_isSome.mpr ⟨a0, ha0, by simp [hid]⟩
  obtain ⟨a, ha⟩ := Option.isSome_iff_exists.mp hsome
  refine ⟨a, ha, ?_⟩
  have := List.find?_some ha
  simpa using this

/-! ### Spec-side weight formulas (transcribed from the specification text,
to be compared with the code's `calculateAgentWeights`) -/

/-- Performance score as worded by the spec: `0.7` for a fresh agent, else
`0.7 * (completedTasks/assignedTasks) + 0.3 * min(1, assignedTasks/100)`. -/
def specPerformance (a : Agent) : ℚ :=
  if a.assignedTasks = 0 then 7/10
  else (7/10) * ((a.completedTasks : ℚ) / (a.assignedTasks : ℚ)) +
    (3/10) * jsMin 1 ((a.assignedTasks : ℚ) / 100)

/-- Workload factor as worded by the spec: `1` when
`assignedTasks - completedTasks ≤ 0`, `0.1` when the difference is `≥ 50`,
else `max(0.1, 1 - difference/50)`. -/
def specWorkloadFactor (a : Agent) : ℚ :=
  let diff : ℤ := (a.assignedTasks : ℤ) - (a.completedTasks : ℤ)
  if diff ≤ 0 then 1
  else if 50 ≤ diff then 1/10
  else jsMax (1/10) (1 - (diff : ℚ) / 50)

/-- Weight as worded by the spec: `max(0.1, performance * workloadFactor)`. -/
def specWeight (a : Agent) : ℚ := jsMax (1/10) (specPerformance a * specWorkloadFactor a)

theorem calculateAgentPerformance_eq_spec (a : Agent) :
    calculateAgentPerformance a = specPerformance a := by
  unfold calculateAgentPerformance specPerformance
  split
  · rfl
  · ring

theorem calculateWorkloadFactor_eq_spec (a : Agent) :
    calculateWorkloadFactor a = specWorkloadFactor a := rfl

/-! ### Concrete fixtures used for witnesses and counterexamples -/

/-- A record fixture with the given name and notes text. -/
def mkRec (nm nts : String) : Rec :=
  { firstName := nm, phone := "1234567890", notes := nts,
    status := RStatus.pending, assignedAt := 0 }

/-- An active agent fixture with the given id and counters. -/
def mkAgent (i hist done : Nat) : Agent :=
  { id := i, name := "", email := "", isActive := true,
    assignedTasks := hist, completedTasks := done }

def demoRecs10 : List Rec := (List.range 10).map fun i => mkRec (toString i) ""

def demoRecs3 : List Rec := [mkRec "a" "x", mkRec "b" "xxx", mkRec "c" "xx"]

def demoAgents3 : List Agent := [mkAgent 1 0 0, mkAgent 2 0 0, mkAgent 3 0 0]

def demoAgents2 : List Agent := [mkAgent 1 0 0, mkAgent 2 0 0]

def demoAgents2b : List Agent := [mkAgent 1 0 0, mkAgent 3 100 100]

def demoAgent1 : List Agent := [mkAgent 1 0 0]

def demoInactive : List Agent := [{ mkAgent 4 0 0 with isActive := false }]

/-- The weight table for two fresh agents: both get the cold-start
performance `0.7` and workload factor `1`, hence weight `0.7`. -/
theorem weights_demoAgents2 : calculateAgentWeights demoAgents2 =
    [{ agentId := 1, weight := 7/10, performance := 7/10, workloadFactor := 1 },
     { agentId := 2, weight := 7/10, performance := 7/10, workloadFactor := 1 }] := by
  have h1 : calculateAgentPerformance (mkAgent 1 0 0) = 7/10 := rfl
  have h2 : calculateWorkloadFactor (mkAgent 1 0 0) = 1 := rfl
  have h3 : calculateAgentPerformance (mkAgent 2 0 0) = 7/10 := rfl
  have h4 : calculateWorkloadFactor (mkAgent 2 0 0) = 1 := rfl
  have hj : jsMax (1/10 : ℚ) ((7/10) * 1) = 7/10 := by
    unfold jsMax
    norm_num
  unfold calculateAgentWeights demoAgents2
  simp only [List.map_cons, List.map_nil, h1, h2, h3, h4, hj]
  simp only [List.insertionSort, List.orderedInsert]
  rw [if_pos (by unfold weightGE; norm_num)]
  simp [mkAgent]

/-- `Math.round(3 * (0.7 / 1.4)) = Math.round(1.5) = 2`. -/
theorem share_demo : shareOf 3 ((7:ℚ)/10 + (7/10 + 0)) (7/10) = 2 := by
  have hsum : ((7:ℚ)/10 + (7/10 + 0)) = 7/5 := by norm_num
  rw [hsum]
  unfold shareOf jsRound
  have h : ((3:Nat):ℚ) * ((7/10) / (7/5)) + 1/2 = 2 := by push_cast; norm_num
  rw [h]
  rw [show ((2:ℚ)) = ((2:ℤ):ℚ) by norm_num, Int.floor_intCast]
  rfl

/-- Full evaluation of the weighted strategy on 3 records and 2 fresh
agents: both groups get `assignedCount = 2`, but the second group's slice
holds only the one remaining record. -/
theorem weightedDistribution_demo : weightedDistribution 0 demoRecs3 demoAgents2 =
    [ { agentId := 1, agentName := "", agentEmail := "", assignedCount := 2,
        weight := some (7/10),
        records := [assignRecord 0 (mkRec "a" "x"), assignRecord 0 (mkRec "b" "xxx")] },
      { agentId := 2, agentName := "", agentEmail := "", assignedCount := 2,
        weight := some (7/10),
        records := [assignRecord 0 (mkRec "c" "xx")] } ] := by
  unfold weightedDistribution
  rw [weights_demoAgents2]
  have hlen : demoRecs3.length = 3 := rfl
  simp only [List.map_cons, List.map_nil, List.sum_cons, List.sum_nil, hlen]
  simp only [weightedGo, weightedGroup, hlen, share_demo]
  norm_num
  simp [demoAgents2, mkAgent, demoRecs3, List.find?]

/-- **C1** (code_bug evidence). The spec's partition invariant fails on the
weighted strategy: for 3 records and 2 equally weighted active agents
(both with weight `0.7`), each agent's rounded share is
`Math.round(3 * 0.5) = 2`, so the groups carry `assignedCount = [2, 2]`
summing to 4 ≠ 3, and the second group's `assignedCount` (2) differs from
the length of its records list (1). -/
theorem weighted_breaks_partition_invariant :
    ((weightedDistribution 0 demoRecs3 demoAgents2).map Group.assignedCount).sum = 4 ∧
    demoRecs3.length = 3 ∧
    ((weightedDistribution 0 demoRecs3 demoAgents2)[1]?).map
      (fun g => (g.assignedCount, g.records.length)) = some (2, 1) := by
  rw [weightedDistribution_demo]
  refine ⟨rfl, rfl, rfl⟩

/-- Everything the spec asserts about the equal strategy, for one input. -/
def EqualOutcome (now : Nat) (records : List Rec) (agents : List Agent) : Prop :=
  let k := agents.length
  let n := records.length / k
  let r := records.length % k
  let out := equalDistribution now records agents
  out.length = k ∧
  (∀ j, out[j]? = (agents[j]?).map fun a : Agent =>
      ({ agentId := a.id
         agentName := a.name
         agentEmail := a.email
         assignedCount := eqCount n r j
         records := ((records.drop (eqStart n r 0 j)).take (eqCount n r j)).map
           (assignRecord now) } : Group)) ∧
  (∀ j g, j < r → out[j]? = some g → g.assignedCount = n + 1) ∧
  (∀ j g, r ≤ j → out[j]? = some g → g.assignedCount = n) ∧
  ((out.map Group.records).flatten = records.map (assignRecord now)) ∧
  listMax (out.map Group.assignedCount) - listMin (out.map Group.assignedCount) ≤ 1 ∧
  (records.length = 10 → k = 3 → out.map Group.assignedCount = [4, 3, 3])

/-- **C2**. The equal strategy walks the record list from the front handing
agent `j` the contiguous slice of size `n + 1` for `j < r` and `n`
otherwise (`n = ⌊records/agents⌋`, `r = records mod agents`); every record
is assigned exactly once, the spread between the largest and smallest group
is at most one, and 10 records over 3 agents yield sizes `[4, 3, 3]`. -/
theorem equal_distribution_spec (now : Nat) (records : List Rec) (agents : List Agent)
    (h : agents ≠ []) : EqualOutcome now records agents := by
  have hk0 : 0 < agents.length := List.length_pos.mpr h
  simp only [EqualOutcome]
  have hget : ∀ j, (equalDistribution now records agents)[j]? =
      (agents[j]?).map fun a : Agent =>
        ({ agentId := a.id
           agentName := a.name
           agentEmail := a.email
           assignedCount := eqCount (records.length / agents.length)
             (records.length % agents.length) j
           records := ((records.drop
               (eqStart (records.length / agents.length) (records.length % agents.length) 0 j)).take
               (eqCount (records.length / agents.length) (records.length % agents.length) j)).map
             (assignRecord now) } : Group) := by
    intro j
    unfold equalDistribution
    rw [equalGo_getElem?]
    simp
  have hcounts : (equalDistribution now records agents).map Group.assignedCount =
      (List.range agents.length).map fun j =>
        eqCount (records.length / agents.length) (records.length % agents.length) j := by
    unfold equalDistribution
    rw [equalGo_counts]
    apply List.map_congr_left
    intro t _
    simp
  refine ⟨?_, hget, ?_, ?_, ?_, ?_, ?_⟩
  · unfold equalDistribution
    exact equalGo_length now records _ _ agents 0 0
  · intro j g hj hg
    rw [hget j] at hg
    cases ha : agents[j]? with
    | none => rw [ha] at hg; simp at hg
    | some a =>
      rw [ha] at hg
      simp only [Option.map, Option.some.injEq] at hg
      rw [← hg]
      simp [eqCount, hj]
  · intro j g hj hg
    rw [hget j] at hg
    cases ha : agents[j]? with
    | none => rw [ha] at hg; simp at hg
    | some a =>
      rw [ha] at hg
      simp only [Option.map, Option.some.injEq] at hg
      rw [← hg]
      have : ¬ j < records.length % agents.length := by omega
      simp [eqCount, this]
  · unfold equalDistribution
    rw [equalGo_flatten]
    have hr : records.length % agents.length ≤ agents.length :=
      le_of_lt (Nat.mod_lt _ hk0)
    rw [eqStart_total _ _ _ hr]
    have : agents.length * (records.length / agents.length) +
        records.length % agents.length = records.length := Nat.div_add_mod _ _
    rw [this, List.drop_zero, List.take_length]
  · rw [hcounts]
    have hne : ((List.range agents.length).map fun j =>
        eqCount (records.length / agents.length) (records.length % agents.length) j) ≠ [] := by
      simp [List.length_pos.mp, hk0]
    have hbound : ∀ c ∈ (List.range agents.length).map fun j =>
        eqCount (records.length / agents.length) (records.length % agents.length) j,
        records.length / agents.length ≤ c ∧
          c ≤ records.length / agents.length + 1 := by
      intro c hc
      obtain ⟨t, _, rfl⟩ := List.mem_map.mp hc
      unfold eqCount
      split <;> omega
    have h1 := listMax_mem hne
    have h2 := listMin_mem hne
    have h3 := hbound _ h1
    have h4 := hbound _ h2
    omega
  · intro h10 hk3
    rw [hcounts, h10, hk3]
    decide

/-- Witness for `equal_distribution_spec` at 10 records over 3 agents. -/
theorem equal_distribution_spec_witness :
    demoAgents3 ≠ [] ∧ EqualOutcome 0 demoRecs10 demoAgents3 :=
  ⟨by decide, equal_distribution_spec 0 demoRecs10 demoAgents3 (by decide)⟩

/-- Error behaviour of `distribute` claimed by the spec, for one input. -/
def DistributeErrors (records : List Rec) (agents : List Agent) (strategy : String)
    (now dTime : Nat) : Prop :=
  ((distribute records agents strategy now dTime).isOk = true ↔
      records ≠ [] ∧ agents ≠ [] ∧ agents.filter Agent.isActive ≠ []) ∧
  (records = [] → distribute records agents strategy now dTime =
      Except.error DistError.emptyInput) ∧
  (records ≠ [] → agents = [] → distribute records agents strategy now dTime =
      Except.error DistError.noAgents) ∧
  (records ≠ [] → agents ≠ [] → agents.filter Agent.isActive = [] →
      distribute records agents strategy now dTime = Except.error DistError.noActiveAgents) ∧
  (strategy ≠ "equal" → strategy ≠ "weighted" → strategy ≠ "priority" →
      (distribute records agents strategy now dTime).toOption.map DistResult.agents =
        (distribute records agents "equal" now dTime).toOption.map DistResult.agents ∧
      (distribute records agents strategy now dTime).toOption.map DistResult.summary =
        (distribute records agents "equal" now dTime).toOption.map DistResult.summary)

/-- **C5**. `distribute` fails exactly on an empty record list, an empty
agent list, or an agent list with no active agent (each with its own
error), and an unrecognized strategy is not an error: it runs the equal
strategy. -/
theorem distribute_error_spec (records : List Rec) (agents : List Agent) (strategy : String)
    (now dTime : Nat) : DistributeErrors records agents strategy now dTime := by
  unfold DistributeErrors
  by_cases h1 : records.length = 0
  · have hrecs : records = [] := List.length_eq_zero.mp h1
    subst hrecs
    simp [distribute, Except.isOk, Except.toBool]
  · have hrecs : records ≠ [] := fun hc => h1 (by rw [hc]; rfl)
    by_cases h2 : agents.length = 0
    · have hags : agents = [] := List.length_eq_zero.mp h2
      subst hags
      simp [distribute, h1, Except.isOk, Except.toBool, hrecs]
    · have hags : agents ≠ [] := fun hc => h2 (by rw [hc]; rfl)
      by_cases h3 : (agents.filter Agent.isActive).length = 0
      · have hact : agents.filter Agent.isActive = [] := List.length_eq_zero.mp h3
        simp [distribute, h1, h2, h3, hrecs, hags, hact, Except.isOk, Except.toBool]
      · have hact : agents.filter Agent.isActive ≠ [] := fun hc => h3 (by rw [hc]; rfl)
        refine ⟨?_, ?_, ?_, ?_, ?_⟩
        · simp [distribute, h1, h2, h3, hrecs, hags, hact, Except.isOk, Except.toBool]
        · intro hc
          exact absurd hc hrecs
        · intro _ hc
          exact absurd hc hags
        · intro _ _ hc
          exact absurd hc hact
        · intro hs1 hs2 hs3
          simp [distribute, h1, h2, h3, hs2, hs3, Except.toOption]

/-- Witness for `distribute_error_spec`: each error case, and the
fall-back to the equal strategy for the unknown name `"bogus"`. -/
theorem distribute_error_spec_witness :
    distribute [] demoAgent1 "equal" 0 0 = Except.error DistError.emptyInput ∧
    distribute demoRecs3 [] "equal" 0 0 = Except.error DistError.noAgents ∧
    distribute demoRecs3 demoInactive "equal" 0 0 = Except.error DistError.noActiveAgents ∧
    (distribute demoRecs3 demoAgent1 "bogus" 0 0).isOk = true ∧
    (distribute demoRecs3 demoAgent1 "bogus" 0 0).toOption.map DistResult.agents =
      (distribute demoRecs3 demoAgent1 "equal" 0 0).toOption.map DistResult.agents :=
  ⟨(distribute_error_spec [] demoAgent1 "equal" 0 0).2.1 rfl,
   (distribute_error_spec demoRecs3 [] "equal" 0 0).2.2.1 (by decide) rfl,
   (distribute_error_spec demoRecs3 demoInactive "equal" 0 0).2.2.2.1 (by decide)
     (by decide) (by decide),
   (distribute_error_spec demoRecs3 demoAgent1 "bogus" 0 0).1.mpr
     ⟨by decide, by decide, by decide⟩,
   ((distribute_error_spec demoRecs3 demoAgent1 "bogus" 0 0).2.2.2.2 (by decide) (by decide)
     (by decide)).1⟩

/-- Everything the spec asserts about the priority strategy, for one
input: both sorts are descending and stable, group `j` receives exactly
the `j`-th round-robin slice of the complexity-sorted records, and no
group ends up more than one record ahead of any other. -/
def PriorityOutcome (now : Nat) (records : List Rec) (agents : List Agent) : Prop :=
  let sortedRecords := List.insertionSort notesGE records
  let sortedAgents := List.insertionSort perfGE agents
  let k := agents.length
  let out := priorityDistribution now records agents
  out.length = k ∧
  List.Sorted (fun x y : Nat => y ≤ x) (sortedRecords.map fun r => r.notes.length) ∧
  List.Sorted (fun x y : ℚ => y ≤ x) (sortedAgents.map calculateAgentPerformance) ∧
  (∀ v : Nat, sortedRecords.filter (fun r => r.notes.length = v) =
      records.filter (fun r => r.notes.length = v)) ∧
  (∀ q : ℚ, sortedAgents.filter (fun a => calculateAgentPerformance a = q) =
      agents.filter (fun a => calculateAgentPerformance a = q)) ∧
  (∀ j, out[j]? = (sortedAgents[j]?).map fun a : Agent =>
      ({ agentId := a.id
         agentName := a.name
         agentEmail := a.email
         assignedCount := (rrSlice k 0 j sortedRecords).length
         records := (rrSlice k 0 j sortedRecords).map (assignRecord now) } : Group)) ∧
  (∀ (j j2 : Nat) (g g2 : Group), out[j]? = some g → out[j2]? = some g2 →
      g.assignedCount ≤ g2.assignedCount + 1)

/-- **C4**. The priority strategy sorts records descending by the length
of their notes and agents descending by performance (both stably, ties in
input order), then deals the sorted records round-robin one at a time
starting from the best agent, so no agent receives more than one record
more than any other. -/
theorem priority_distribution_spec (now : Nat) (records : List Rec) (agents : List Agent)
    (h : agents ≠ []) : PriorityOutcome now records agents := by
  have hk0 : 0 < agents.length := List.length_pos.mpr h
  simp only [PriorityOutcome]
  have hlenA : (List.insertionSort perfGE agents).length = agents.length :=
    List.length_insertionSort perfGE agents
  have hinit : (priorityDistribution now records agents) =
      rrAssign (assignRecord now) agents.length (List.insertionSort notesGE records) 0
        ((List.insertionSort perfGE agents).map fun a =>
          { agentId := a.id
            agentName := a.name
            agentEmail := a.email
            assignedCount := 0
            records := ([] : List Rec) : Group }) := by
    simp only [priorityDistribution]
    rw [List.length_map, hlenA]
  have hlenInit : agents.length = ((List.insertionSort perfGE agents).map fun a =>
      { agentId := a.id
        agentName := a.name
        agentEmail := a.email
        assignedCount := 0
        records := ([] : List Rec) : Group }).length := by
    rw [List.length_map, hlenA]
  have hget : ∀ j, (priorityDistribution now records agents)[j]? =
      ((List.insertionSort perfGE agents)[j]?).map fun a : Agent =>
        ({ agentId := a.id
           agentName := a.name
           agentEmail := a.email
           assignedCount := (rrSlice agents.length 0 j
             (List.insertionSort notesGE records)).length
           records := (rrSlice agents.length 0 j
             (List.insertionSort notesGE records)).map (assignRecord now) } : Group) := by
    intro j
    rw [hinit, rrAssign_getElem? (assignRecord now) _ 0 _ hk0 hlenInit j,
      List.getElem?_map, Option.map_map]
    cases (List.insertionSort perfGE agents)[j]? <;> simp [Function.comp]
  refine ⟨?_, ?_, ?_, ?_, ?_, hget, ?_⟩
  · rw [hinit, rrAssign_length, List.length_map, hlenA]
  · have hs := List.sorted_insertionSort notesGE records
    exact List.pairwise_map.mpr hs
  · have hs := List.sorted_insertionSort perfGE agents
    exact List.pairwise_map.mpr hs
  · intro v
    exact filter_insertionSort_eq notesGE (fun r => r.notes.length)
      (fun a b hab => by
        have hab2 : a.notes.length = b.notes.length := hab
        unfold notesGE
        omega)
      records v
  · intro q
    exact filter_insertionSort_eq perfGE calculateAgentPerformance
      (fun a b hab => by
        have hab2 : calculateAgentPerformance a = calculateAgentPerformance b := hab
        unfold perfGE
        rw [hab2])
      agents q
  · intro j j2 g g2 hg hg2
    have hbal := rrAssign_balance (assignRecord now) (List.insertionSort notesGE records) 0 0
      ((List.insertionSort perfGE agents).map fun a =>
        { agentId := a.id
          agentName := a.name
          agentEmail := a.email
          assignedCount := 0
          records := ([] : List Rec) : Group }) hk0 hlenInit ?_
    · obtain ⟨c2, i2, _, hc⟩ := hbal
      rw [hinit] at hg hg2
      have e1 := hc j g hg
      have e2 := hc j2 g2 hg2
      split_ifs at e1 e2 <;> omega
    · intro j0 g0 hj0
      rw [List.getElem?_map] at hj0
      cases ha : (List.insertionSort perfGE agents)[j0]? with
      | none => rw [ha] at hj0; simp at hj0
      | some a =>
        rw [ha] at hj0
        simp only [Option.map, Option.some.injEq] at hj0
        rw [← hj0]
        simp

/-- Witness for `priority_distribution_spec` at 3 records over 2 agents. -/
theorem priority_distribution_spec_witness :
    demoAgents2b ≠ [] ∧ PriorityOutcome 0 demoRecs3 demoAgents2b :=
  ⟨by decide, priority_distribution_spec 0 demoRecs3 demoAgents2b (by decide)⟩

/-- The two shapes `weightedDistribution` can take: the plain loop result
when the rounded shares cover the whole list, and the loop result with the
remaining records appended to the head (highest-weight) group otherwise. -/
theorem weightedDistribution_cases (now : Nat) (records : List Rec) (agents : List Agent) :
    (records.length ≤ ((calculateAgentWeights agents).map fun w =>
        shareOf records.length (((calculateAgentWeights agents).map WeightEntry.weight).sum)
          w.weight).sum →
      weightedDistribution now records agents =
        (weightedGo now records (((calculateAgentWeights agents).map WeightEntry.weight).sum)
          agents 0 (calculateAgentWeights agents)).1) ∧
    (((calculateAgentWeights agents).map fun w =>
        shareOf records.length (((calculateAgentWeights agents).map WeightEntry.weight).sum)
          w.weight).sum < records.length →
      ∀ g0 rest,
        (weightedGo now records (((calculateAgentWeights agents).map WeightEntry.weight).sum)
          agents 0 (calculateAgentWeights agents)).1 = g0 :: rest →
        weightedDistribution now records agents =
          { g0 with
              records := g0.records ++
                (records.drop (((calculateAgentWeights agents).map fun w =>
                  shareOf records.length
                    (((calculateAgentWeights agents).map WeightEntry.weight).sum)
                    w.weight).sum)).map (assignRecord now)
              assignedCount := g0.assignedCount +
                ((records.drop (((calculateAgentWeights agents).map fun w =>
                  shareOf records.length
                    (((calculateAgentWeights agents).map WeightEntry.weight).sum)
                    w.weight).sum)).map (assignRecord now)).length } :: rest) := by
  have hsnd := weightedGo_snd now records
    (((calculateAgentWeights agents).map WeightEntry.weight).sum) agents
    (calculateAgentWeights agents) 0
  constructor
  · intro hle
    simp only [weightedDistribution]
    rw [if_neg (by rw [hsnd]; omega)]
  · intro hlt g0 rest hcons
    simp only [weightedDistribution]
    rw [if_pos (by rw [hsnd]; omega), hcons]
    rw [hsnd]
    simp only [Nat.zero_add]

/-- Everything the spec asserts about the weighted strategy, for one
input: the weight table realizes the spec's formulas sorted descending,
each group in sorted-weight order gets `round(total * weight/totalWeight)`
records sliced from the front, and the rounding residue (if any) goes
entirely to the first (highest-weight) group. -/
def WeightedOutcome (now : Nat) (records : List Rec) (agents : List Agent) : Prop :=
  let ws := calculateAgentWeights agents
  let W := (ws.map WeightEntry.weight).sum
  let share := fun w : WeightEntry => shareOf records.length W w.weight
  let start := fun j : Nat => ((ws.take j).map share).sum
  let total := (ws.map share).sum
  let out := weightedDistribution now records agents
  ws = List.insertionSort weightGE (agents.map fun a =>
      ({ agentId := a.id
         weight := specWeight a
         performance := specPerformance a
         workloadFactor := specWorkloadFactor a } : WeightEntry)) ∧
  List.Sorted (fun x y : ℚ => y ≤ x) (ws.map WeightEntry.weight) ∧
  out.length = agents.length ∧
  (∀ (j : Nat) (w : WeightEntry) (g : Group), 1 ≤ j ∨ records.length ≤ total →
      ws[j]? = some w → out[j]? = some g →
      g.agentId = w.agentId ∧ g.weight = some w.weight ∧
      g.assignedCount = share w ∧
      g.records = ((records.drop (start j)).take (share w)).map (assignRecord now)) ∧
  (total < records.length → ∀ (w : WeightEntry) (g : Group),
      ws[0]? = some w → out[0]? = some g →
      g.agentId = w.agentId ∧ g.weight = some w.weight ∧
      g.assignedCount = share w + (records.length - total) ∧
      g.records = ((records.take (share w)).map (assignRecord now)) ++
        ((records.drop total).map (assignRecord now)))

/-- **C3**. The weighted strategy's weight table, ordering, proportional
shares, slice walk, and residue-to-top-performer behaviour, exactly as the
spec words them. -/
theorem weighted_distribution_spec (now : Nat) (records : List Rec) (agents : List Agent)
    (h : agents ≠ []) : WeightedOutcome now records agents := by
  have hk0 : 0 < agents.length := List.length_pos.mpr h
  simp only [WeightedOutcome]
  have hwslen : (calculateAgentWeights agents).length = agents.length := by
    unfold calculateAgentWeights
    rw [List.length_insertionSort, List.length_map]
  have hgolen := weightedGo_length now records
    (((calculateAgentWeights agents).map WeightEntry.weight).sum) agents
    (calculateAgentWeights agents) 0
  have hget := weightedGo_getElem? now records
    (((calculateAgentWeights agents).map WeightEntry.weight).sum) agents
    (calculateAgentWeights agents) 0
  have hcases := weightedDistribution_cases now records agents
  -- field extraction for one loop group
  have hfields : ∀ (j : Nat) (w : WeightEntry), (calculateAgentWeights agents)[j]? = some w →
      ∀ idx, (weightedGroup now records
          (((calculateAgentWeights agents).map WeightEntry.weight).sum) agents idx w).agentId =
          w.agentId ∧
        (weightedGroup now records
          (((calculateAgentWeights agents).map WeightEntry.weight).sum) agents idx w).weight =
          some w.weight ∧
        (weightedGroup now records
          (((calculateAgentWeights agents).map WeightEntry.weight).sum) agents idx w).assignedCount
          = shareOf records.length
            (((calculateAgentWeights agents).map WeightEntry.weight).sum) w.weight ∧
        (weightedGroup now records
          (((calculateAgentWeights agents).map WeightEntry.weight).sum) agents idx w).records =
          ((records.drop idx).take (shareOf records.length
            (((calculateAgentWeights agents).map WeightEntry.weight).sum) w.weight)).map
            (assignRecord now) := by
    intro j w hj idx
    have hmem : w ∈ calculateAgentWeights agents := by
      rcases List.getElem?_eq_some.mp hj with ⟨hb, hval⟩
      exact hval ▸ List.getElem_mem _
    obtain ⟨a, hfind, hid⟩ := weight_find_success agents w hmem
    unfold weightedGroup
    rw [hfind]
    simp [hid]
  refine ⟨?_, ?_, ?_, ?_, ?_⟩
  · unfold calculateAgentWeights
    congr 1
    apply List.map_congr_left
    intro a _
    simp only [specWeight, calculateAgentPerformance_eq_spec, calculateWorkloadFactor_eq_spec]
  · have hs := List.sorted_insertionSort weightGE
      (agents.map fun a =>
        let performance := calculateAgentPerformance a
        let workloadFactor := calculateWorkloadFactor a
        { agentId := a.id
          weight := jsMax (1/10) (performance * workloadFactor)
          performance := performance
          workloadFactor := workloadFactor })
    exact List.pairwise_map.mpr hs
  · rcases Nat.lt_or_ge (((calculateAgentWeights agents).map fun w =>
        shareOf records.length (((calculateAgentWeights agents).map WeightEntry.weight).sum)
          w.weight).sum) records.length with hlt | hge
    · have hlen0 : 0 < (weightedGo now records
          (((calculateAgentWeights agents).map WeightEntry.weight).sum)
          agents 0 (calculateAgentWeights agents)).1.length := by
        rw [hgolen, hwslen]
        exact hk0
      obtain ⟨g0, rest, hcons⟩ : ∃ g0 rest, (weightedGo now records
          (((calculateAgentWeights agents).map WeightEntry.weight).sum)
          agents 0 (calculateAgentWeights agents)).1 = g0 :: rest := by
        cases hgo : (weightedGo now records
            (((calculateAgentWeights agents).map WeightEntry.weight).sum)
            agents 0 (calculateAgentWeights agents)).1 with
        | nil => rw [hgo] at hlen0; simp at hlen0
        | cons g0 rest => exact ⟨g0, rest, rfl⟩
      rw [hcases.2 hlt g0 rest hcons]
      have := congrArg List.length hcons
      rw [hgolen, hwslen] at this
      simp only [List.length_cons] at this ⊢
      omega
    · rw [hcases.1 hge, hgolen, hwslen]
  · intro j w g hj hw hg
    have hjlt : j < (calculateAgentWeights agents).length := by
      rcases List.getElem?_eq_some.mp hw with ⟨hb, _⟩
      exact hb
    have hout : (weightedDistribution now records agents)[j]? =
        (weightedGo now records (((calculateAgentWeights agents).map WeightEntry.weight).sum)
          agents 0 (calculateAgentWeights agents)).1[j]? := by
      rcases hj with hj1 | hjle
      · rcases Nat.lt_or_ge (((calculateAgentWeights agents).map fun w2 =>
            shareOf records.length
              (((calculateAgentWeights agents).map WeightEntry.weight).sum)
              w2.weight).sum) records.length with hlt | hge
        · have hlen0 : 0 < (weightedGo now records
              (((calculateAgentWeights agents).map WeightEntry.weight).sum)
              agents 0 (calculateAgentWeights agents)).1.length := by
            rw [hgolen, hwslen]
            exact hk0
          obtain ⟨g0, rest, hcons⟩ : ∃ g0 rest, (weightedGo now records
              (((calculateAgentWeights agents).map WeightEntry.weight).sum)
              agents 0 (calculateAgentWeights agents)).1 = g0 :: rest := by
            cases hgo : (weightedGo now records
                (((calculateAgentWeights agents).map WeightEntry.weight).sum)
                agents 0 (calculateAgentWeights agents)).1 with
            | nil => rw [hgo] at hlen0; simp at hlen0
            | cons g0 rest => exact ⟨g0, rest, rfl⟩
          rw [hcases.2 hlt g0 rest hcons, hcons]
          obtain ⟨j2, rfl⟩ : ∃ j2, j = j2 + 1 := ⟨j - 1, by omega⟩
          simp [List.getElem?_cons_succ]
        · rw [hcases.1 hge]
      · rw [hcases.1 hjle]
    rw [hout, hget j, hw] at hg
    simp only [Option.map, Option.some.injEq] at hg
    have hf := hfields j w hw
      (0 + (((calculateAgentWeights agents).take j).map fun w2 =>
        shareOf records.length (((calculateAgentWeights agents).map WeightEntry.weight).sum)
          w2.weight).sum)
    rw [hg] at hf
    simpa using hf
  · intro hlt w g hw hg
    have hlen0 : 0 < (weightedGo now records
        (((calculateAgentWeights agents).map WeightEntry.weight).sum)
        agents 0 (calculateAgentWeights agents)).1.length := by
      rw [hgolen, hwslen]
      exact hk0
    obtain ⟨g0, rest, hcons⟩ : ∃ g0 rest, (weightedGo now records
        (((calculateAgentWeights agents).map WeightEntry.weight).sum)
        agents 0 (calculateAgentWeights agents)).1 = g0 :: rest := by
      cases hgo : (weightedGo now records
          (((calculateAgentWeights agents).map WeightEntry.weight).sum)
          agents 0 (calculateAgentWeights agents)).1 with
      | nil => rw [hgo] at hlen0; simp at hlen0
      | cons g0 rest => exact ⟨g0, rest, rfl⟩
    rw [hcases.2 hlt g0 rest hcons] at hg
    simp only [List.getElem?_cons_zero, Option.some.injEq] at hg
    have hg0 : (weightedGo now records
        (((calculateAgentWeights agents).map WeightEntry.weight).sum)
        agents 0 (calculateAgentWeights agents)).1[0]? = some g0 := by
      rw [hcons]
      simp
    rw [hget 0, hw] at hg0
    simp only [Option.map, Option.some.injEq] at hg0
    have hf := hfields 0 w hw (0 + (((calculateAgentWeights agents).take 0).map fun w2 =>
      shareOf records.length (((calculateAgentWeights agents).map WeightEntry.weight).sum)
        w2.weight).sum)
    rw [hg0] at hf
    simp only [List.take_zero, List.map_nil, List.sum_nil, Nat.add_zero, Nat.zero_add] at hf ⊢
    rw [← hg]
    refine ⟨hf.1, hf.2.1, ?_, ?_⟩
    · simp only [hf.2.2.1]
      rw [List.length_map, List.length_drop]
    · rw [hf.2.2.2]
      simp [List.drop_zero]

/-- Witness for `weighted_distribution_spec` at 3 records over 2 agents
with distinct weights. -/
theorem weighted_distribution_spec_witness :
    demoAgents2b ≠ [] ∧ WeightedOutcome 0 demoRecs3 demoAgents2b :=
  ⟨by decide, weighted_distribution_spec 0 demoRecs3 demoAgents2b (by decide)⟩

/-! ### Strategy output lengths -/

theorem equalDistribution_length (now : Nat) (records : List Rec) (agents : List Agent) :
    (equalDistribution now records agents).length = agents.length := by
  unfold equalDistribution
  exact equalGo_length now records _ _ agents 0 0

theorem weightedDistribution_length (now : Nat) (records : List Rec) (agents : List Agent) :
    (weightedDistribution now records agents).length = agents.length := by
  have hwslen : (calculateAgentWeights agents).length = agents.length := by
    unfold calculateAgentWeights
    rw [List.length_insertionSort, List.length_map]
  have hgolen := weightedGo_length now records
    (((calculateAgentWeights agents).map WeightEntry.weight).sum) agents
    (calculateAgentWeights agents) 0
  have hcases := weightedDistribution_cases now records agents
  rcases Nat.lt_or_ge (((calculateAgentWeights agents).map fun w =>
      shareOf records.length (((calculateAgentWeights agents).map WeightEntry.weight).sum)
        w.weight).sum) records.length with hlt | hge
  · cases hgo : (weightedGo now records
        (((calculateAgentWeights agents).map WeightEntry.weight).sum)
        agents 0 (calculateAgentWeights agents)).1 with
    | nil =>
      have h0 := congrArg List.length hgo
      rw [hgolen] at h0
      have hags0 : agents.length = 0 := by
        rw [← hwslen]
        simpa using h0
      simp only [weightedDistribution]
      rw [hgo]
      split <;> simp [hags0]
    | cons g0 rest =>
      rw [hcases.2 hlt g0 rest hgo]
      have h0 := congrArg List.length hgo
      rw [hgolen, hwslen] at h0
      simp only [List.length_cons] at h0 ⊢
      omega
  · rw [hcases.1 hge, hgolen, hwslen]

theorem priorityDistribution_length (now : Nat) (records : List Rec) (agents : List Agent) :
    (priorityDistribution now records agents).length = agents.length := by
  simp only [priorityDistribution]
  rw [rrAssign_length, List.length_map, List.length_insertionSort]

/-! ### Summary and fairness -/

theorem fairness_nonneg (cs : List Nat) : (0:ℝ) ≤ calculateFairnessScore cs := by
  unfold calculateFairnessScore
  split
  · norm_num
  · exact le_max_left 0 _

theorem fairness_le_one (cs : List Nat) : calculateFairnessScore cs ≤ 1 := by
  unfold calculateFairnessScore
  split
  · norm_num
  · apply max_le zero_le_one
    apply sub_le_self
    apply div_nonneg (Real.sqrt_nonneg _)
    apply div_nonneg _ (Nat.cast_nonneg _)
    apply List.sum_nonneg
    intro x hx
    obtain ⟨c, _, rfl⟩ := List.mem_map.mp hx
    exact Nat.cast_nonneg c

theorem fairness_single (cs : List Nat) (h : cs.length ≤ 1) :
    calculateFairnessScore cs = 1 := by
  unfold calculateFairnessScore
  rw [if_pos h]

/-- The summary facts claimed by the spec, stated for one `distribute`
result. -/
def SummaryOutcome (records : List Rec) (res : DistResult) : Prop :=
  let counts := res.agents.map Group.assignedCount
  res.summary.totalAgentsAssigned = res.agents.length ∧
  res.summary.totalRecordsDistributed = records.length ∧
  res.summary.averageRecordsPerAgent =
    jsRound2 ((records.length : ℚ) / (res.agents.length : ℚ)) ∧
  res.summary.minRecordsAssigned ∈ counts ∧
  (∀ c ∈ counts, res.summary.minRecordsAssigned ≤ c) ∧
  res.summary.maxRecordsAssigned ∈ counts ∧
  (∀ c ∈ counts, c ≤ res.summary.maxRecordsAssigned) ∧
  res.summary.distributionVariance =
    res.summary.maxRecordsAssigned - res.summary.minRecordsAssigned ∧
  (0:ℝ) ≤ res.summary.fairnessScore ∧ res.summary.fairnessScore ≤ 1 ∧
  (res.agents.length ≤ 1 → res.summary.fairnessScore = 1) ∧
  (2 ≤ counts.length → res.summary.fairnessScore =
    max 0 (1 - Real.sqrt
      (((counts.map fun c => ((c:ℝ) - (counts.sum : ℝ) / (counts.length : ℝ)) ^ 2).sum)
        / (counts.length : ℝ)) /
      ((counts.sum : ℝ) / (counts.length : ℝ))))

/-- All `SummaryOutcome` facts hold of `generateSummary` applied to a
nonempty group list. -/
theorem generateSummary_outcome (records : List Rec) (dTime : Nat) (D : List Group)
    (strategy : String) (hD : D ≠ []) :
    SummaryOutcome records
      { agents := D, summary := generateSummary D records.length dTime,
        strategy := strategy, distributionTime := dTime } := by
  have hco : D.map Group.assignedCount ≠ [] := by
    intro hc
    exact hD (List.map_eq_nil_iff.mp hc)
  simp only [SummaryOutcome]
  refine ⟨rfl, rfl, rfl, listMin_mem hco, fun c hc => listMin_le hc,
    listMax_mem hco, fun c hc => le_listMax hc, rfl,
    fairness_nonneg _, fairness_le_one _, ?_, ?_⟩
  · intro hlen
    show calculateFairnessScore (D.map Group.assignedCount) = 1
    apply fairness_single
    rw [List.length_map]
    exact hlen
  · intro h2
    show calculateFairnessScore (D.map Group.assignedCount) = _
    unfold calculateFairnessScore
    rw [if_neg (by omega)]
    rw [Nat.cast_list_sum]

/-- **C6**. Every `distribute` result's summary has the claimed shape:
two-decimal average, true min/max of the per-agent counts, variance =
max − min, fairness score `max(0, 1 - stddev/mean)` lying in `[0, 1]` and
equal to `1` for at most one agent; and every computed weight is at least
`0.1`. -/
theorem distribute_summary_spec (records : List Rec) (agents : List Agent) (strategy : String)
    (now dTime : Nat) (res : DistResult)
    (hok : distribute records agents strategy now dTime = Except.ok res) :
    SummaryOutcome records res ∧
    (∀ (ags : List Agent), ∀ w ∈ calculateAgentWeights ags, (1:ℚ)/10 ≤ w.weight) := by
  constructor
  · simp only [distribute] at hok
    by_cases h1 : records.length = 0
    · rw [if_pos h1] at hok
      exact Except.noConfusion hok
    rw [if_neg h1] at hok
    by_cases h2 : agents.length = 0
    · rw [if_pos h2] at hok
      exact Except.noConfusion hok
    rw [if_neg h2] at hok
    by_cases h3 : (agents.filter Agent.isActive).length = 0
    · rw [if_pos h3] at hok
      exact Except.noConfusion hok
    rw [if_neg h3] at hok
    simp only [Except.ok.injEq] at hok
    subst hok
    apply generateSummary_outcome
    intro hc
    split_ifs at hc
    · have hl := congrArg List.length hc
      rw [weightedDistribution_length] at hl
      exact h3 (by simpa using hl)
    · have hl := congrArg List.length hc
      rw [priorityDistribution_length] at hl
      exact h3 (by simpa using hl)
    · have hl := congrArg List.length hc
      rw [equalDistribution_length] at hl
      exact h3 (by simpa using hl)
  · intro ags w hw
    rw [calculateAgentWeights, List.mem_insertionSort] at hw
    obtain ⟨a, _, rfl⟩ := List.mem_map.mp hw
    exact le_jsMax_left _ _

/-- Concrete `distribute` result used to witness `distribute_summary_spec`. -/
noncomputable def demoRes : DistResult :=
  { agents := equalDistribution 0 demoRecs10 (demoAgents3.filter Agent.isActive)
    summary := generateSummary
      (equalDistribution 0 demoRecs10 (demoAgents3.filter Agent.isActive))
      demoRecs10.length 0
    strategy := "equal"
    distributionTime := 0 }

/-- Witness for `distribute_summary_spec` on 10 records over 3 agents. -/
theorem distribute_summary_spec_witness :
    distribute demoRecs10 demoAgents3 "equal" 0 0 = Except.ok demoRes ∧
    (SummaryOutcome demoRecs10 demoRes ∧
      (∀ (ags : List Agent), ∀ w ∈ calculateAgentWeights ags, (1:ℚ)/10 ≤ w.weight)) :=
  ⟨rfl, distribute_summary_spec demoRecs10 demoAgents3 "equal" 0 0 demoRes rfl⟩

/-! ### Record status updates (controller) -/

/-- A record already completed at time 5 (owned by agent 7). -/
def c7rec : Rec := { mkRec "r" "" with status := RStatus.completed, completedAt := some 5 }

def c7dist : PDist :=
  { id := 1, totalRecords := 1,
    agents := [{ agentId := 7, agentName := "x", agentEmail := "", assignedCount := 1,
                 records := [c7rec] }],
    psummary := { totalAgentsAssigned := 1, averageRecordsPerAgent := 1, distributionTime := 0 } }

def c7users : List UserCt := [{ id := 7, assignedTasks := 5, completedTasks := 2 }]

/-- **C7** (counterexample). Transitioning a record out of `completed`
(here `completed → failed` at time 9) does NOT clear `completedAt`: the
updated record still carries `completedAt = some 5`, while the claim says
it must be cleared. -/
theorem completedAt_not_cleared :
    (updateRecordStatus c7dist c7users 7 0 RStatus.failed none 9).toOption.map
      (fun t => t.2.2.completedAt) = some (some 5) ∧
    (updateRecordStatus c7dist c7users 7 0 RStatus.failed none 9).toOption.map
      (fun t => t.2.2.completedAt) ≠ some none := by
  refine ⟨by decide, by decide⟩

/-- A pending record and its owner at `assignedTasks = 5`,
`completedTasks = 2`, for the round-trip scenario. -/
def rtDist : PDist :=
  { id := 1, totalRecords := 1,
    agents := [{ agentId := 7, agentName := "", agentEmail := "", assignedCount := 1,
                 records := [mkRec "r" ""] }],
    psummary := { totalAgentsAssigned := 1, averageRecordsPerAgent := 1, distributionTime := 0 } }

def rtUsers : List UserCt := [{ id := 7, assignedTasks := 5, completedTasks := 2 }]

/-- The spec's round-trip scenario: `pending → completed` takes the
owner's `completedTasks` from 2 to 3, and `completed → failed` afterwards
restores 2. -/
def UpdateRoundTrip : Prop :=
  ((updateRecordStatus rtDist rtUsers 7 0 RStatus.completed none 3).toOption.map
      (fun t => t.2.1.map UserCt.completedTasks)) = some [3] ∧
  (((updateRecordStatus rtDist rtUsers 7 0 RStatus.completed none 3).toOption.bind
      (fun t => (updateRecordStatus t.1 t.2.1 7 0 RStatus.failed none 4).toOption)).map
      (fun t => t.2.1.map UserCt.completedTasks)) = some [2]

/-- What a successful status update does, stated on the old record `old`
at the caller's `recordIndex` (amended from the claim: on a transition out
of `completed` the record's `completedAt` keeps its previous value — the
code never clears it). -/
def UpdateOutcome (d : PDist) (users : List UserCt) (callerId recordIndex : Nat)
    (status : RStatus) (notes : Option String) (now : Nat) (old : Rec) : Prop :=
  let res := updateRecordStatus d users callerId recordIndex status notes now
  (res.toOption.map fun t => t.2.2.status) = some status ∧
  (status = RStatus.completed →
    (res.toOption.map fun t => t.2.2.completedAt) = some (some now)) ∧
  (status ≠ RStatus.completed →
    (res.toOption.map fun t => t.2.2.completedAt) = some old.completedAt) ∧
  (old.status ≠ RStatus.completed → status = RStatus.completed →
    (res.toOption.map fun t => t.2.1) = some (incCompleted users callerId 1)) ∧
  (old.status = RStatus.completed → status ≠ RStatus.completed →
    (res.toOption.map fun t => t.2.1) = some (incCompleted users callerId (-1))) ∧
  ((old.status = RStatus.completed ↔ status = RStatus.completed) →
    (res.toOption.map fun t => t.2.1) = some users)

/-- **C7** (amended). A successful status update sets the new status,
stamps `completedAt = now` exactly on transitions into `completed` (and
otherwise leaves `completedAt` unchanged — it is never cleared), and
applies exactly one `completedTasks` increment (decrement) on the caller's
user record when the transition enters (leaves) `completed`, nothing
otherwise; the spec's 5/2 round-trip scenario holds. -/
theorem update_record_status_spec (d : PDist) (users : List UserCt)
    (callerId recordIndex : Nat) (status : RStatus) (notes : Option String) (now : Nat)
    (g : Group) (old : Rec)
    (hg : d.agents.find? (fun x => x.agentId = callerId) = some g)
    (hold : g.records[recordIndex]? = some old) :
    UpdateOutcome d users callerId recordIndex status notes now old ∧
    (∀ u : UserCt, users.find? (fun x => x.id = callerId) = some u →
      (incCompleted users callerId 1).find? (fun x => x.id = callerId) =
        some { u with completedTasks := u.completedTasks + 1 } ∧
      (incCompleted users callerId (-1)).find? (fun x => x.id = callerId) =
        some { u with completedTasks := u.completedTasks - 1 }) ∧
    UpdateRoundTrip := by
  obtain ⟨hb, hval⟩ := List.getElem?_eq_some.mp hold
  refine ⟨?_, ?_, ?_⟩
  · simp only [UpdateOutcome, updateRecordStatus, hg, hb, dif_pos]
    have hgetold : g.records.get ⟨recordIndex, hb⟩ = old := hval
    rw [hgetold]
    refine ⟨rfl, ?_, ?_, ?_, ?_, ?_⟩
    · intro hs
      simp [Except.toOption, hs]
    · intro hs
      simp [Except.toOption, hs]
    · intro ho hs
      simp [Except.toOption, ho, hs]
    · intro ho hs
      simp [Except.toOption, ho, hs]
    · intro hiff
      by_cases ho : old.status = RStatus.completed
      · have hs : status = RStatus.completed := hiff.mp ho
        simp [Except.toOption, ho, hs]
      · have hs : status ≠ RStatus.completed := fun hc => ho (hiff.mpr hc)
        simp [Except.toOption, ho, hs]
  · intro u hu
    constructor
    · unfold incCompleted
      rw [updateFirst_find?_same _ _ (fun a ha => by simpa using ha) users, hu]
      rfl
    · unfold incCompleted
      rw [updateFirst_find?_same _ _ (fun a ha => by simpa using ha) users, hu]
      simp [Int.sub_eq_add_neg]
  · refine ⟨by decide, by decide⟩

/-- Witness for `update_record_status_spec` on the round-trip fixture. -/
theorem update_record_status_spec_witness :
    rtDist.agents.find? (fun x => x.agentId = 7) =
      some { agentId := 7, agentName := "", agentEmail := "", assignedCount := 1,
             records := [mkRec "r" ""] } ∧
    (UpdateOutcome rtDist rtUsers 7 0 RStatus.completed none 3 (mkRec "r" "") ∧
      (∀ u : UserCt, rtUsers.find? (fun x => x.id = 7) = some u →
        (incCompleted rtUsers 7 1).find? (fun x => x.id = 7) =
          some { u with completedTasks := u.completedTasks + 1 } ∧
        (incCompleted rtUsers 7 (-1)).find? (fun x => x.id = 7) =
          some { u with completedTasks := u.completedTasks - 1 }) ∧
      UpdateRoundTrip) :=
  ⟨by decide,
   update_record_status_spec rtDist rtUsers 7 0 RStatus.completed none 3
     { agentId := 7, agentName := "", agentEmail := "", assignedCount := 1,
       records := [mkRec "r" ""] } (mkRec "r" "") (by decide) (by decide)⟩

/-! ### Persisted summary and the save hook -/

theorem preSave_agents (d : PDist) : (preSave d).agents = d.agents := by
  unfold preSave
  split <;> rfl

theorem preSave_totalRecords (d : PDist) : (preSave d).totalRecords = d.totalRecords := by
  unfold preSave
  split <;> rfl

theorem preSave_time (d : PDist) :
    (preSave d).psummary.distributionTime = d.psummary.distributionTime := by
  unfold preSave
  split <;> rfl

theorem preSave_idem (d : PDist) : preSave (preSave d) = preSave d := by
  by_cases h : d.agents.length ≠ 0
  · have h1 : preSave d = { d with psummary :=
        { d.psummary with
            totalAgentsAssigned := d.agents.length
            averageRecordsPerAgent :=
              (jsRound ((d.totalRecords : ℚ) / (d.agents.length : ℚ)) : ℚ) } } := by
      unfold preSave
      rw [if_pos h]
    rw [h1]
    unfold preSave
    rw [if_pos (by simpa using h)]
  · have h1 : preSave d = d := by
      unfold preSave
      rw [if_neg h]
    rw [h1]
    exact h1

/-- The document returned by a successful `updateRecordStatus` carries the
hook-recomputed summary: `totalAgentsAssigned = number of groups` and the
integer-rounded average, with `distributionTime` untouched. -/
theorem updateRecordStatus_psummary (d : PDist) (users : List UserCt)
    (callerId recordIndex : Nat) (status : RStatus) (notes : Option String) (now : Nat)
    (g : Group) (hg : d.agents.find? (fun x => x.agentId = callerId) = some g)
    (hb : recordIndex < g.records.length) :
    (updateRecordStatus d users callerId recordIndex status notes now).toOption.map
      (fun t => t.1.psummary) =
    some { d.psummary with
      totalAgentsAssigned := d.agents.length
      averageRecordsPerAgent := (jsRound ((d.totalRecords : ℚ) / (d.agents.length : ℚ)) : ℚ) } := by
  have hne : d.agents ≠ [] := by
    intro hc
    rw [hc] at hg
    exact Option.noConfusion hg
  have hlen0 : d.agents.length ≠ 0 := fun hc => hne (List.length_eq_zero.mp hc)
  simp only [updateRecordStatus, hg, dif_pos hb, Except.toOption, Option.map]
  congr 1
  unfold preSave
  simp only [updateFirst_length]
  rw [if_pos hlen0]

/-- Projections of the summary carried by a successful update's document. -/
theorem updateRecordStatus_avgField (d : PDist) (users : List UserCt)
    (callerId recordIndex : Nat) (status : RStatus) (notes : Option String) (now : Nat)
    (g : Group) (hg : d.agents.find? (fun x => x.agentId = callerId) = some g)
    (hb : recordIndex < g.records.length) :
    (updateRecordStatus d users callerId recordIndex status notes now).toOption.map
      (fun t => t.1.psummary.averageRecordsPerAgent) =
    some ((jsRound ((d.totalRecords : ℚ) / (d.agents.length : ℚ))) : ℚ) := by
  have hne : d.agents ≠ [] := by
    intro hc
    rw [hc] at hg
    exact Option.noConfusion hg
  have hlen0 : d.agents.length ≠ 0 := fun hc => hne (List.length_eq_zero.mp hc)
  simp only [updateRecordStatus, hg, dif_pos hb, Except.toOption, Option.map]
  congr 1
  unfold preSave
  simp only [updateFirst_length]
  rw [if_pos hlen0]

theorem updateRecordStatus_countField (d : PDist) (users : List UserCt)
    (callerId recordIndex : Nat) (status : RStatus) (notes : Option String) (now : Nat)
    (g : Group) (hg : d.agents.find? (fun x => x.agentId = callerId) = some g)
    (hb : recordIndex < g.records.length) :
    (updateRecordStatus d users callerId recordIndex status notes now).toOption.map
      (fun t => t.1.psummary.totalAgentsAssigned) = some d.agents.length := by
  have hne : d.agents ≠ [] := by
    intro hc
    rw [hc] at hg
    exact Option.noConfusion hg
  have hlen0 : d.agents.length ≠ 0 := fun hc => hne (List.length_eq_zero.mp hc)
  simp only [updateRecordStatus, hg, dif_pos hb, Except.toOption, Option.map]
  congr 1
  unfold preSave
  simp only [updateFirst_length]
  rw [if_pos hlen0]

theorem updateRecordStatus_timeField (d : PDist) (users : List UserCt)
    (callerId recordIndex : Nat) (status : RStatus) (notes : Option String) (now : Nat)
    (g : Group) (hg : d.agents.find? (fun x => x.agentId = callerId) = some g)
    (hb : recordIndex < g.records.length) :
    (updateRecordStatus d users callerId recordIndex status notes now).toOption.map
      (fun t => t.1.psummary.distributionTime) = some d.psummary.distributionTime := by
  simp only [updateRecordStatus, hg, dif_pos hb, Except.toOption, Option.map]
  congr 1
  rw [preSave_time]

/-- **C8** (amended). After a successful status update the persisted
summary holds the hook-recomputed values — group count and the
integer-rounded average `round(totalRecords / groups)` — which are
unchanged by the update; `distributionTime` is never touched; a document
whose summary already satisfies the hook (in particular any document
produced by `createDistribution`) keeps its summary verbatim across
updates. (The persisted schema stores only these three summary fields;
the engine's two-decimal average is not what is kept — see the
counterexample.) -/
theorem persisted_summary_stable (d : PDist) (users : List UserCt)
    (callerId recordIndex : Nat) (status : RStatus) (notes : Option String) (now : Nat)
    (g : Group) (hg : d.agents.find? (fun x => x.agentId = callerId) = some g)
    (hb : recordIndex < g.records.length) :
    ((updateRecordStatus d users callerId recordIndex status notes now).toOption.map
      (fun t => t.1.psummary.distributionTime)) = some d.psummary.distributionTime ∧
    ((updateRecordStatus d users callerId recordIndex status notes now).toOption.map
      (fun t => t.1.psummary.totalAgentsAssigned)) = some d.agents.length ∧
    ((updateRecordStatus d users callerId recordIndex status notes now).toOption.map
      (fun t => t.1.psummary.averageRecordsPerAgent)) =
      some ((jsRound ((d.totalRecords : ℚ) / (d.agents.length : ℚ))) : ℚ) ∧
    (preSave d = d →
      (updateRecordStatus d users callerId recordIndex status notes now).toOption.map
        (fun t => t.1.psummary) = some d.psummary) ∧
    (∀ (i t : Nat) (gs : List Group) (s : Summary),
      preSave (createDistribution i t gs s) = createDistribution i t gs s) := by
  have hdoc := updateRecordStatus_psummary d users callerId recordIndex status notes now g hg hb
  have hne : d.agents ≠ [] := by
    intro hc
    rw [hc] at hg
    exact Option.noConfusion hg
  have hlen0 : d.agents.length ≠ 0 := fun hc => hne (List.length_eq_zero.mp hc)
  refine ⟨updateRecordStatus_timeField d users callerId recordIndex status notes now g hg hb,
    updateRecordStatus_countField d users callerId recordIndex status notes now g hg hb,
    updateRecordStatus_avgField d users callerId recordIndex status notes now g hg hb, ?_, ?_⟩
  · intro hfix
    have hfix2 : { d.psummary with
        totalAgentsAssigned := d.agents.length
        averageRecordsPerAgent :=
          (jsRound ((d.totalRecords : ℚ) / (d.agents.length : ℚ)) : ℚ) } = d.psummary := by
      have h1 : preSave d = { d with psummary :=
          { d.psummary with
              totalAgentsAssigned := d.agents.length
              averageRecordsPerAgent :=
                (jsRound ((d.totalRecords : ℚ) / (d.agents.length : ℚ)) : ℚ) } } := by
        unfold preSave
        rw [if_pos hlen0]
      rw [h1] at hfix
      exact congrArg PDist.psummary hfix
    rw [hdoc, hfix2]
  · intro i t gs s
    exact preSave_idem _

/-- Engine summary for 10 records over 3 agents under the equal strategy. -/
noncomputable def c8engineSummary : Summary :=
  generateSummary (equalDistribution 0 demoRecs10 demoAgents3) demoRecs10.length 0

/-- The persisted document created from that engine output. -/
noncomputable def c8created : PDist :=
  createDistribution 1 10 (equalDistribution 0 demoRecs10 demoAgents3) c8engineSummary

def c8users : List UserCt := [{ id := 1, assignedTasks := 4, completedTasks := 0 }]

/-- The first group of the created document, spelled out. -/
def c8group1 : Group :=
  { agentId := 1, agentName := "", agentEmail := "", assignedCount := 4,
    records := [mkRec "0" "", mkRec "1" "", mkRec "2" "", mkRec "3" ""] }

/-- **C8** (counterexample). The engine computes
`averageRecordsPerAgent = 3.33` for 10 records over 3 agents, but the
persisted summary after a subsequent status update (a save) carries the
hook value `round(10/3) = 3 ≠ 3.33` — the persisted summary does not keep
the engine's figures. -/
theorem persisted_average_not_engine_value :
    (generateSummary (equalDistribution 0 demoRecs10 demoAgents3)
      demoRecs10.length 0).averageRecordsPerAgent = 333/100 ∧
    ((updateRecordStatus c8created c8users 1 0 RStatus.inProgress none 5).toOption.map
      (fun t => t.1.psummary.averageRecordsPerAgent)) = some 3 ∧
    (333/100 : ℚ) ≠ 3 := by
  have hD3 : (equalDistribution 0 demoRecs10 demoAgents3).length = 3 := by
    rw [equalDistribution_length]
    rfl
  refine ⟨?_, ?_, by norm_num⟩
  · show jsRound2 ((demoRecs10.length : ℚ) /
      ((equalDistribution 0 demoRecs10 demoAgents3).length : ℚ)) = 333/100
    rw [hD3, show demoRecs10.length = 10 from rfl]
    unfold jsRound2 jsRound
    have hx : ((10:ℕ):ℚ) / ((3:ℕ):ℚ) * 100 + 1/2 = 2003/6 := by
      push_cast
      norm_num
    rw [hx]
    have hf : Int.floor ((2003:ℚ)/6) = 333 := by
      rw [Int.floor_eq_iff] <;> norm_num
    rw [hf]
    norm_num
  · have hfind : c8created.agents.find? (fun x => x.agentId = 1) = some c8group1 := by
      decide
    have hb : (0:Nat) < c8group1.records.length := by decide
    rw [updateRecordStatus_avgField c8created c8users 1 0 RStatus.inProgress none 5
      c8group1 hfind hb]
    have hlen : c8created.agents.length = 3 := by
      show (createDistribution 1 10 (equalDistribution 0 demoRecs10 demoAgents3)
        c8engineSummary).agents.length = 3
      unfold createDistribution
      rw [preSave_agents]
      exact hD3
    have htot : c8created.totalRecords = 10 := by
      show (createDistribution 1 10 (equalDistribution 0 demoRecs10 demoAgents3)
        c8engineSummary).totalRecords = 10
      unfold createDistribution
      rw [preSave_totalRecords]
    rw [hlen, htot]
    congr 1
    unfold jsRound
    have hx : ((10:ℕ):ℚ) / ((3:ℕ):ℚ) + 1/2 = 23/6 := by
      push_cast
      norm_num
    rw [hx]
    have hf : Int.floor ((23:ℚ)/6) = 3 := by
      rw [Int.floor_eq_iff] <;> norm_num
    rw [hf]
    norm_num

/-- Witness for `persisted_summary_stable` on the created document. -/
theorem persisted_summary_stable_witness :
    c8created.agents.find? (fun x => x.agentId = 1) = some c8group1 ∧
    (0:Nat) < c8group1.records.length ∧
    ((updateRecordStatus c8created c8users 1 0 RStatus.inProgress none 5).toOption.map
      (fun t => t.1.psummary.distributionTime)) = some c8created.psummary.distributionTime :=
  ⟨by decide, by decide,
   (persisted_summary_stable c8created c8users 1 0 RStatus.inProgress none 5 c8group1
     (by decide) (by decide)).1⟩

/-! ### Redistribution of failed records -/

/-- A group with the given agent id and `n` pending records. -/
def loadGroup (aid n : Nat) : Group :=
  { agentId := aid, agentName := "", agentEmail := "", assignedCount := n,
    records := (List.range n).map fun i => mkRec (toString i) "" }

def c9dist : PDist :=
  { id := 9, totalRecords := 9, agents := [loadGroup 1 5, loadGroup 2 1, loadGroup 3 3],
    psummary := { totalAgentsAssigned := 3, averageRecordsPerAgent := 3,
                  distributionTime := 0 } }

def c9failed : List Rec := [mkRec "f1" "", mkRec "f2" ""]

/-- Everything the spec asserts about `redistributeTasks`, for one input
with a nonempty failed list: groups are stably sorted ascending by live
load, each group receives its round-robin slice of the failed records
(marked pending / fresh `assignedAt` / `redistributed = true`), the
header fields stay untouched (no record leaves the distribution), and the
`assignedCount = records.length` invariant is preserved. -/
def RedistOutcome (now : Nat) (failedTasks : List Rec) (d : PDist) : Prop :=
  let sorted := List.insertionSort loadLE d.agents
  let k := d.agents.length
  let out := redistributeTasks now failedTasks d
  out.id = d.id ∧
  out.totalRecords = d.totalRecords ∧
  out.psummary = d.psummary ∧
  out.agents.length = d.agents.length ∧
  List.Sorted (fun x y : Nat => x ≤ y) (sorted.map currentLoad) ∧
  (∀ v : Nat, sorted.filter (fun g => currentLoad g = v) =
      d.agents.filter (fun g => currentLoad g = v)) ∧
  (∀ j, out.agents[j]? = (sorted[j]?).map fun g : Group =>
      { g with
          records := g.records ++ (rrSlice k 0 j failedTasks).map (redistAssign now),
          assignedCount := g.assignedCount + (rrSlice k 0 j failedTasks).length }) ∧
  ((∀ g ∈ d.agents, g.assignedCount = g.records.length) →
    ∀ g2 ∈ out.agents, g2.assignedCount = g2.records.length)

/-- **C9**. Redistribution sorts groups ascending by live load (count of
pending / in-progress records; stable, ties in original order) and deals
the failed records round-robin from the least-loaded group, marking each
`pending`, restamping `assignedAt`, and tagging `redistributed`; touched
groups' `assignedCount` tracks their new records length and no record
moves to a different distribution. With live loads `[5, 1, 3]` and two
failed records, the first lands on the load-1 group and the second on the
load-3 group. -/
theorem redistribute_spec (now : Nat) (failedTasks : List Rec) (d : PDist)
    (hf : failedTasks ≠ []) (hd : d.agents ≠ []) :
    RedistOutcome now failedTasks d ∧
    (redistributeTasks 7 c9failed c9dist).agents.map (fun g => (g.agentId, g.assignedCount)) =
      [(2, 2), (3, 4), (1, 5)] ∧
    ((redistributeTasks 7 c9failed c9dist).agents[0]?).map
      (fun g => g.records.map Rec.firstName) = some ["0", "f1"] := by
  have hk0 : 0 < d.agents.length := List.length_pos.mpr hd
  have hfl : failedTasks.length ≠ 0 := fun hc => hf (List.length_eq_zero.mp hc)
  have hsortlen : (List.insertionSort loadLE d.agents).length = d.agents.length :=
    List.length_insertionSort loadLE d.agents
  have hout : redistributeTasks now failedTasks d =
      { d with agents := (rrAssign (redistAssign now)
          (List.insertionSort loadLE d.agents).length failedTasks 0
          (List.insertionSort loadLE d.agents)) } := by
    unfold redistributeTasks
    rw [if_neg hfl]
  have hget : ∀ j, (redistributeTasks now failedTasks d).agents[j]? =
      ((List.insertionSort loadLE d.agents)[j]?).map fun g : Group =>
        { g with
            records := g.records ++
              (rrSlice d.agents.length 0 j failedTasks).map (redistAssign now),
            assignedCount := g.assignedCount +
              (rrSlice d.agents.length 0 j failedTasks).length } := by
    intro j
    rw [hout]
    show (rrAssign (redistAssign now) (List.insertionSort loadLE d.agents).length failedTasks 0
      (List.insertionSort loadLE d.agents))[j]? = _
    rw [rrAssign_getElem? (redistAssign now) failedTasks 0 _ (by omega) rfl j, hsortlen]
  refine ⟨⟨by rw [hout], by rw [hout], by rw [hout], ?_, ?_, ?_, hget, ?_⟩, by decide, by decide⟩
  · rw [hout]
    show (rrAssign (redistAssign now) (List.insertionSort loadLE d.agents).length failedTasks 0
      (List.insertionSort loadLE d.agents)).length = d.agents.length
    rw [rrAssign_length, hsortlen]
  · have hs := List.sorted_insertionSort loadLE d.agents
    exact List.pairwise_map.mpr hs
  · intro v
    exact filter_insertionSort_eq loadLE currentLoad
      (fun a b hab => by
        have hab2 : currentLoad a = currentLoad b := hab
        unfold loadLE
        omega)
      d.agents v
  · intro hinv g2 hg2
    obtain ⟨j, hj⟩ := List.mem_iff_getElem?.mp hg2
    rw [hget j] at hj
    cases hs : (List.insertionSort loadLE d.agents)[j]? with
    | none => rw [hs] at hj; simp at hj
    | some g =>
      rw [hs] at hj
      simp only [Option.map, Option.some.injEq] at hj
      have hmem : g ∈ d.agents := by
        have : g ∈ List.insertionSort loadLE d.agents := by
          rcases List.getElem?_eq_some.mp hs with ⟨hb, hval⟩
          exact hval ▸ List.getElem_mem _
        rwa [List.mem_insertionSort] at this
      have hbase := hinv g hmem
      rw [← hj]
      simp only [List.length_append, List.length_map]
      omega

/-- Witness for `redistribute_spec` at the `[5, 1, 3]` fixture. -/
theorem redistribute_spec_witness :
    c9failed ≠ [] ∧ c9dist.agents ≠ [] ∧
    (RedistOutcome 7 c9failed c9dist ∧
      (redistributeTasks 7 c9failed c9dist).agents.map
        (fun g => (g.agentId, g.assignedCount)) = [(2, 2), (3, 4), (1, 5)] ∧
      ((redistributeTasks 7 c9failed c9dist).agents[0]?).map
        (fun g => g.records.map Rec.firstName) = some ["0", "f1"]) :=
  ⟨by decide, by decide, redistribute_spec 7 c9failed c9dist (by decide) (by decide)⟩

/-! ### Deletion of a distribution -/

theorem decrementFor_find?_ne (g : Group) (users : List UserCt) (uid : Nat)
    (hne : g.agentId ≠ uid) :
    (decrementFor g users).find? (fun u => u.id = uid) =
      users.find? (fun u => u.id = uid) := by
  unfold decrementFor
  apply updateFirst_find?_other
  · intro a ha
    simp only [decide_eq_true_eq] at ha
    simp [ha, hne]
  · intro a
    rfl

theorem decrementFor_find?_eq (g : Group) (users : List UserCt) :
    (decrementFor g users).find? (fun u => u.id = g.agentId) =
      (users.find? (fun u => u.id = g.agentId)).map fun u =>
        { u with
            assignedTasks := u.assignedTasks - (g.assignedCount : ℤ),
            completedTasks := u.completedTasks - (countCompleted g : ℤ) } := by
  unfold decrementFor
  apply updateFirst_find?_same
  intro a ha
  exact ha

theorem foldl_decrement_find? :
    ∀ (gs : List Group) (users : List UserCt) (uid : Nat),
      (gs.foldl (fun us g => decrementFor g us) users).find? (fun u => u.id = uid) =
      ((users.find? fun u => u.id = uid).map fun u =>
        { u with
            assignedTasks := u.assignedTasks -
              (((gs.filter fun g => g.agentId = uid).map Group.assignedCount).sum : ℤ),
            completedTasks := u.completedTasks -
              (((gs.filter fun g => g.agentId = uid).map countCompleted).sum : ℤ) })
  | [], users, uid => by
    simp only [List.foldl_nil, List.filter_nil, List.map_nil, List.sum_nil,
      Nat.cast_zero, Int.sub_zero]
    cases users.find? fun u => u.id = uid <;> simp
  | g :: gs, users, uid => by
    simp only [List.foldl_cons]
    rw [foldl_decrement_find? gs (decrementFor g users) uid]
    by_cases hgu : g.agentId = uid
    · subst hgu
      rw [decrementFor_find?_eq g users]
      rw [List.filter_cons_of_pos (by simp)]
      cases users.find? fun u => u.id = g.agentId with
      | none => simp
      | some u =>
        simp only [Option.map, Option.some.injEq, List.map_cons, List.sum_cons]
        have h1 : u.assignedTasks - (g.assignedCount : ℤ) -
            (((gs.filter fun g2 => g2.agentId = g.agentId).map Group.assignedCount).sum : ℤ) =
            u.assignedTasks - ((g.assignedCount +
              ((gs.filter fun g2 => g2.agentId = g.agentId).map Group.assignedCount).sum : ℕ) : ℤ)
            := by
          push_cast
          ring
        have h2 : u.completedTasks - (countCompleted g : ℤ) -
            (((gs.filter fun g2 => g2.agentId = g.agentId).map countCompleted).sum : ℤ) =
            u.completedTasks - ((countCompleted g +
              ((gs.filter fun g2 => g2.agentId = g.agentId).map countCompleted).sum : ℕ) : ℤ)
            := by
          push_cast
          ring
        simp only [UserCt.mk.injEq]
        exact ⟨trivial, h1, h2⟩
    · rw [decrementFor_find?_ne g users uid hgu]
      rw [List.filter_cons_of_neg (by simp [hgu])]

/-- What the spec asserts about `deleteDistribution`, for one state. -/
def DeleteOutcome (dists : List PDist) (users : List UserCt) (id : Nat) : Prop :=
  (dists.find? (fun x => x.id = id) = none →
    deleteDistribution dists users id = Except.error DelError.notFound) ∧
  (∀ d : PDist, dists.find? (fun x => x.id = id) = some d →
    deleteDistribution dists users id =
      Except.ok (dists.eraseP (fun x => x.id = id),
        d.agents.foldl (fun us g => decrementFor g us) users) ∧
    ∀ uid : Nat,
      (d.agents.foldl (fun us g => decrementFor g us) users).find? (fun u => u.id = uid) =
      ((users.find? fun u => u.id = uid).map fun u =>
        { u with
            assignedTasks := u.assignedTasks -
              (((d.agents.filter fun g => g.agentId = uid).map Group.assignedCount).sum : ℤ),
            completedTasks := u.completedTasks -
              (((d.agents.filter fun g => g.agentId = uid).map countCompleted).sum : ℤ) }))

/-- **C10**. Deleting an existing distribution decrements, for each of its
groups, the owning agent's global `assignedTasks` by the group's
`assignedCount` and `completedTasks` by the number of currently completed
records in that group, then removes the document; a missing id yields
`NotFound` and changes nothing. -/
theorem delete_distribution_spec (dists : List PDist) (users : List UserCt) (id : Nat) :
    DeleteOutcome dists users id := by
  constructor
  · intro hnone
    unfold deleteDistribution
    rw [hnone]
  · intro d hd
    constructor
    · unfold deleteDistribution
      rw [hd]
    · intro uid
      exact foldl_decrement_find? d.agents users uid

/-- A record fixture in a given status. -/
def c10rec (nm : String) (st : RStatus) : Rec := { mkRec nm "" with status := st }

/-- One group with `assignedCount = 4`, two of whose records are
completed. -/
def c10dist : PDist :=
  { id := 9, totalRecords := 4,
    agents := [{ agentId := 7, agentName := "", agentEmail := "", assignedCount := 4,
                 records := [c10rec "a" RStatus.completed, c10rec "b" RStatus.completed,
                             c10rec "c" RStatus.pending, c10rec "d" RStatus.inProgress] }],
    psummary := { totalAgentsAssigned := 1, averageRecordsPerAgent := 4,
                  distributionTime := 0 } }

def c10users : List UserCt := [{ id := 7, assignedTasks := 10, completedTasks := 5 }]

/-- Witness for `delete_distribution_spec`: missing id 99 yields
`NotFound`; deleting the distribution takes agent 7 from `(10, 5)` to
`(6, 3)` — down by `assignedCount = 4` and the 2 completed records. -/
theorem delete_distribution_spec_witness :
    ([c10dist].find? (fun x => x.id = 99) = none) ∧
    deleteDistribution [c10dist] c10users 99 = Except.error DelError.notFound ∧
    ([c10dist].find? (fun x => x.id = 9) = some c10dist) ∧
    ((c10dist.agents.foldl (fun us g => decrementFor g us) c10users).find?
      (fun u => u.id = 7)) =
      some { id := 7, assignedTasks := 6, completedTasks := 3 } := by
  refine ⟨by decide, (delete_distribution_spec [c10dist] c10users 99).1 (by decide),
    by decide, ?_⟩
  have h := ((delete_distribution_spec [c10dist] c10users 9).2 c10dist (by decide)).2 7
  rw [h]
  decide

end Distributer
